import Mathlib

/-!
# SSD1306 display driver (`ssd1306.c`): shallow embedding and verified properties

Machine integers are natural numbers or integers with explicit reductions
modulo `2^w` at the places where the C code truncates.  Memory is a flat,
byte-addressed map; the device structure keeps the pointer `buffer` into it,
so `p->buffer[i]` is `mem (buffer + i)` and `*(p->buffer - 1)` is
`mem (buffer - 1)`.  Addresses and object sizes (`size_t`) are unbounded.
Operations that talk to the display return the list of transport calls they
make, in program order.
-/

namespace SSD1306

/-! ## Data model -/

/-- Build-time transport selection, the value of `DISP_PROTO`. -/
inductive Proto where
  | I2C
  | PIO_I2C
  | SPI
deriving DecidableEq

/-- The device structure `ssd1306_t` (the union of the fields of the two-wire
and four-wire variants of the header) together with the byte-addressed memory
its `buffer` pointer refers to. -/
structure ssd1306_t where
  /-- Field `uint8_t width`. -/
  width : Nat
  /-- Field `uint8_t height`. -/
  height : Nat
  /-- Field `uint8_t pages`. -/
  pages : Nat
  /-- Field `uint8_t address` (two-wire variants). -/
  address : Nat
  /-- Field `uint8_t cs_pin` (four-wire variant). -/
  cs_pin : Nat
  /-- Field `uint8_t dc_pin` (four-wire variant). -/
  dc_pin : Nat
  /-- Field `bool external_vcc`. -/
  external_vcc : Bool
  /-- Field `uint8_t *buffer`, an address; `0` is `NULL`. -/
  buffer : Int
  /-- Field `size_t bufsize`. -/
  bufsize : Nat
  /-- Byte-addressed memory. -/
  mem : Int → Nat

/-- Controller command bytes, the constants that `ssd1306.h` names.  Their
numeric values are a parameter of every operation that sends commands. -/
structure Opcodes where
  SET_CONTRAST : Nat
  SET_ENTIRE_ON : Nat
  SET_NORM_INV : Nat
  SET_DISP : Nat
  SET_MEM_ADDR : Nat
  SET_COL_ADDR : Nat
  SET_PAGE_ADDR : Nat
  SET_DISP_START_LINE : Nat
  SET_SEG_REMAP : Nat
  SET_MUX_RATIO : Nat
  SET_COM_OUT_DIR : Nat
  SET_DISP_OFFSET : Nat
  SET_COM_PIN_CFG : Nat
  SET_DISP_CLK_DIV : Nat
  SET_PRECHARGE : Nat
  SET_VCOM_DESEL : Nat
  SET_CHARGE_PUMP : Nat

/-- Command values of the SSD1306 data sheet, a sample instance of `Opcodes`. -/
def datasheet_opcodes : Opcodes where
  SET_CONTRAST := 0x81
  SET_ENTIRE_ON := 0xA4
  SET_NORM_INV := 0xA6
  SET_DISP := 0xAE
  SET_MEM_ADDR := 0x20
  SET_COL_ADDR := 0x21
  SET_PAGE_ADDR := 0x22
  SET_DISP_START_LINE := 0x40
  SET_SEG_REMAP := 0xA0
  SET_MUX_RATIO := 0xA8
  SET_COM_OUT_DIR := 0xC0
  SET_DISP_OFFSET := 0xD3
  SET_COM_PIN_CFG := 0xDA
  SET_DISP_CLK_DIV := 0xD5
  SET_PRECHARGE := 0xD9
  SET_VCOM_DESEL := 0xDB
  SET_CHARGE_PUMP := 0x8D

/-- One call of a transport or pin primitive, in program order. -/
inductive BusEvent where
  /-- Call `i2c_write_blocking(p->i2c_i, addr, src, len, false)` with the bytes
  `src[0..len)`. -/
  | i2c_write (addr : Nat) (bytes : List Nat)
  /-- Call `pio_i2c_write_blocking(p->pio, p->sm, addr, src, len)`. -/
  | pio_i2c_write (addr : Nat) (bytes : List Nat)
  /-- Call `spi_write_blocking(p->spi_i, src, len)`. -/
  | spi_write (bytes : List Nat)
  /-- Call `gpio_put(pin, value)`. -/
  | gpio_put (pin : Nat) (value : Nat)
deriving DecidableEq

/-- Conversion of a C `int` value to `uint8_t`. -/
def to_u8 (v : Int) : Nat := (v % 256).toNat

/-- Conversion of an `int32_t` value to `uint32_t`. -/
def i32_to_u32 (v : Int) : Nat := (v % 2 ^ 32).toNat

/-- The bytes `src[0..len)` of memory. -/
def read_bytes (mem : Int → Nat) (src : Int) (len : Nat) : List Nat :=
  (List.range len).map (fun (i : Nat) => mem (src + (i : Int)))

/-- Library function `memset(dst, c, n)`. -/
def memset (mem : Int → Nat) (dst : Int) (c : Nat) (n : Nat) : Int → Nat :=
  fun a => if dst ≤ a ∧ a < dst + (n : Int) then c % 256 else mem a

/-! ## Transport framing -/

/-- Embedding of `cs_select`. -/
def cs_select (p : ssd1306_t) : List BusEvent := [BusEvent.gpio_put p.cs_pin 0]

/-- Embedding of `cs_deselect`. -/
def cs_deselect (p : ssd1306_t) : List BusEvent := [BusEvent.gpio_put p.cs_pin 1]

/-- Embedding of `send_command`. -/
def send_command (proto : Proto) (p : ssd1306_t) (command : Nat) : List BusEvent :=
  match proto with
  | Proto.I2C => [BusEvent.i2c_write p.address [0x00, command]]
  | Proto.PIO_I2C => [BusEvent.pio_i2c_write p.address [0x00, command]]
  | Proto.SPI =>
    [BusEvent.gpio_put p.dc_pin 0] ++ cs_select p ++ [BusEvent.spi_write [command]]
      ++ cs_deselect p

/-- Embedding of `send_commands`. -/
def send_commands (proto : Proto) (p : ssd1306_t) (commands : List Nat) : List BusEvent :=
  match proto with
  | Proto.SPI =>
    [BusEvent.gpio_put p.dc_pin 0] ++ cs_select p ++ [BusEvent.spi_write commands]
      ++ cs_deselect p
  | _ => commands.flatMap (send_command proto p)

/-- The bytes put on the bus by a sequence of transport calls, in order. -/
def sent_bytes (evs : List BusEvent) : List Nat :=
  evs.flatMap (fun e =>
    match e with
    | BusEvent.i2c_write _ bytes => bytes
    | BusEvent.pio_i2c_write _ bytes => bytes
    | BusEvent.spi_write bytes => bytes
    | BusEvent.gpio_put _ _ => [])

/-! ## Initialisation -/

/-- The array `cmds` of `ssd1306_init_common`; `width` and `height` are the
`uint16_t` parameters, every element is stored as `uint8_t`. -/
def init_cmds (ops : Opcodes) (external_vcc : Bool) (width height : Nat) : List Nat :=
  [ ops.SET_DISP % 256,
    ops.SET_DISP_CLK_DIV % 256, 0x80, ops.SET_MUX_RATIO % 256, to_u8 ((height : Int) - 1),
    ops.SET_DISP_OFFSET % 256,
    0x00,
    ops.SET_DISP_START_LINE % 256,
    ops.SET_CHARGE_PUMP % 256, if external_vcc then 0x10 else 0x14,
    (ops.SET_SEG_REMAP ||| 0x01) % 256,
    (ops.SET_COM_OUT_DIR ||| 0x08) % 256,
    ops.SET_COM_PIN_CFG % 256, if width > 2 * height then 0x02 else 0x12,
    ops.SET_CONTRAST % 256, 0xff, ops.SET_PRECHARGE % 256,
    if external_vcc then 0x22 else 0xF1,
    ops.SET_VCOM_DESEL % 256,
    0x30,
    ops.SET_ENTIRE_ON % 256,
    ops.SET_NORM_INV % 256,
    (ops.SET_DISP ||| 0x01) % 256,
    ops.SET_MEM_ADDR % 256,
    0x00 ]

/-- Embedding of `ssd1306_init_common`.  `width` and `height` are `uint16_t`;
`malloc n` is the allocator's answer to a request of `n` bytes, `none` for
`NULL`.  The result is the returned flag, the device and the transport calls
made. -/
def ssd1306_init_common (ops : Opcodes) (proto : Proto) (malloc : Nat → Option Int)
    (p : ssd1306_t) (width height : Nat) : Bool × ssd1306_t × List BusEvent :=
  let p1 := { p with width := width % 256 }
  let p2 := { p1 with height := height % 256 }
  let p3 := { p2 with pages := (height / 8) % 256 }
  let p4 := { p3 with bufsize := p3.pages * p3.width }
  match malloc (p4.bufsize + 1) with
  | none => (false, { p4 with buffer := 0, bufsize := 0 }, [])
  | some a =>
    let p5 := { p4 with buffer := a + 1 }
    (true, p5, send_commands proto p5 (init_cmds ops p5.external_vcc width height))

/-! ## Frame buffer -/

/-- Embedding of `ssd1306_clear`. -/
def ssd1306_clear (p : ssd1306_t) : ssd1306_t :=
  { p with mem := memset p.mem p.buffer 0 p.bufsize }

/-- Index expression of `ssd1306_draw_pixel`: `x + p->width * (y >> 3)`,
evaluated in 32-bit unsigned arithmetic. -/
def pixel_index (p : ssd1306_t) (x y : Nat) : Nat :=
  (x + p.width * (y >>> 3)) % 2 ^ 32

/-- Embedding of `ssd1306_draw_pixel`; `x` and `y` are `uint32_t`.  The stored
value is truncated to `uint8_t`. -/
def ssd1306_draw_pixel (p : ssd1306_t) (x y : Nat) : ssd1306_t :=
  if x ≥ p.width ∨ y ≥ p.height then p
  else
    let a := p.buffer + (pixel_index p x y : Int)
    { p with mem := Function.update p.mem a ((p.mem a ||| (0x1 <<< (y &&& 0x07))) % 256) }

/-- Embedding of `swap`.  The pair holds the two cells `*a` and `*b`.  The
local `t` is a copy of the pointer `a`, not of the value `*a`, so the final
store `*b = *t` reads the first cell after `*a = *b` has overwritten it. -/
def swap (a b : Int) : Int × Int :=
  let s0 : Int × Int := (a, b)
  let s1 : Int × Int := (s0.2, s0.2)
  let s2 : Int × Int := (s1.1, s1.1)
  s2

/-! ### Single-precision arithmetic

A finite `float` is represented by the rational number it denotes.  Every
operation computes the exact result and rounds it to the nearest value with a
24-bit significand, ties to even.  The operands that `ssd1306_draw_line`
produces from `int32_t` coordinates stay far inside the exponent range, and
the divisor is never zero there. -/

/-- Nearest integer, ties to even. -/
def round_half_even (s : ℚ) : Int :=
  if s - (⌊s⌋ : ℚ) < 1 / 2 then ⌊s⌋
  else if 1 / 2 < s - (⌊s⌋ : ℚ) then ⌊s⌋ + 1
  else if ⌊s⌋ % 2 = 0 then ⌊s⌋ else ⌊s⌋ + 1

/-- Binary exponent `⌊log₂ q⌋` of a positive rational. -/
def ilog2 (q : ℚ) : Int :=
  let d : Int := (Nat.log2 q.num.natAbs : Int) - (Nat.log2 q.den : Int)
  if (2 : ℚ) ^ d ≤ q then d else d - 1

/-- Rounding of an exact result to `float`. -/
def f32_round (q : ℚ) : ℚ :=
  if q = 0 then 0
  else
    let e : Int := max (ilog2 |q| - 23) (-149)
    (if q < 0 then -1 else 1) * (round_half_even (|q| / (2 : ℚ) ^ e) : ℚ) * (2 : ℚ) ^ e

/-- Conversion `(float)v` of an `int32_t`. -/
def i32_to_f32 (v : Int) : ℚ := f32_round (v : ℚ)

/-- Operator `/` on `float`. -/
def f32_div (a b : ℚ) : ℚ := f32_round (a / b)

/-- Operator `*` on `float`. -/
def f32_mul (a b : ℚ) : ℚ := f32_round (a * b)

/-- Operator `+` on `float`. -/
def f32_add (a b : ℚ) : ℚ := f32_round (a + b)

/-- Conversion `(uint32_t)y` of a `float`: truncation toward zero, undefined
(`none`) when the truncated value is not a `uint32_t`. -/
def f32_to_u32 (y : ℚ) : Option Nat :=
  if -1 < y ∧ y < 2 ^ 32 then some (⌊y⌋).toNat else none

/-- The values `lo, lo + 1, ..., hi` taken by a loop counter. -/
def int_range (lo hi : Int) : List Int :=
  (List.range (hi - lo + 1).toNat).map (fun (k : Nat) => lo + (k : Int))

/-- Body of the second loop of `ssd1306_draw_line` for the column `i`. -/
def line_step (m : ℚ) (x1 y1 : Int) (q : ssd1306_t) (i : Int) : Option ssd1306_t :=
  match f32_to_u32 (f32_add (f32_mul m (i32_to_f32 (i - x1))) (i32_to_f32 y1)) with
  | none => none
  | some y => some (ssd1306_draw_pixel q (i32_to_u32 i) y)

/-- Embedding of `ssd1306_draw_line`; the coordinates are `int32_t`.  The
result is `none` where C leaves the behaviour undefined: a loop counter
incremented past `INT32_MAX`, an `int32_t` subtraction that overflows, or a
`float` to `uint32_t` conversion out of range. -/
def ssd1306_draw_line (p : ssd1306_t) (x1 y1 x2 y2 : Int) : Option ssd1306_t :=
  let xs : Int × Int := if x1 > x2 then swap x1 x2 else (x1, x2)
  let ys : Int × Int := if x1 > x2 then swap y1 y2 else (y1, y2)
  if xs.1 = xs.2 then
    let ys1 : Int × Int := if ys.1 > ys.2 then swap ys.1 ys.2 else ys
    if ys1.2 = 2 ^ 31 - 1 then none
    else
      some ((int_range ys1.1 ys1.2).foldl
        (fun q i => ssd1306_draw_pixel q (i32_to_u32 xs.1) (i32_to_u32 i)) p)
  else if ys.2 - ys.1 < -(2 ^ 31) ∨ 2 ^ 31 ≤ ys.2 - ys.1 ∨ 2 ^ 31 ≤ xs.2 - xs.1
      ∨ xs.2 = 2 ^ 31 - 1 then none
  else
    let m : ℚ := f32_div (i32_to_f32 (ys.2 - ys.1)) (i32_to_f32 (xs.2 - xs.1))
    (int_range xs.1 xs.2).foldlM (line_step m xs.1 ys.1) p

/-- Embedding of `ssd1306_draw_square`; all arguments are `uint32_t`. -/
def ssd1306_draw_square (p : ssd1306_t) (x y width height : Nat) : ssd1306_t :=
  (List.range width).foldl
    (fun q i => (List.range height).foldl
      (fun r j => ssd1306_draw_pixel r ((x + i) % 2 ^ 32) ((y + j) % 2 ^ 32)) q) p

/-- Conversion of a `uint32_t` value to `int32_t` (two's complement). -/
def u32_to_i32 (v : Nat) : Int :=
  if v % 2 ^ 32 < 2 ^ 31 then ((v % 2 ^ 32 : Nat) : Int) else ((v % 2 ^ 32 : Nat) : Int) - 2 ^ 32

/-- Embedding of `ssd1306_draw_empty_square`; all arguments are `uint32_t`,
converted to the `int32_t` parameters of `ssd1306_draw_line`. -/
def ssd1306_draw_empty_square (p : ssd1306_t) (x y width height : Nat) : Option ssd1306_t :=
  (ssd1306_draw_line p (u32_to_i32 x) (u32_to_i32 y)
      (u32_to_i32 ((x + width) % 2 ^ 32)) (u32_to_i32 y)).bind fun p1 =>
  (ssd1306_draw_line p1 (u32_to_i32 x) (u32_to_i32 ((y + height) % 2 ^ 32))
      (u32_to_i32 ((x + width) % 2 ^ 32)) (u32_to_i32 ((y + height) % 2 ^ 32))).bind fun p2 =>
  (ssd1306_draw_line p2 (u32_to_i32 x) (u32_to_i32 y)
      (u32_to_i32 x) (u32_to_i32 ((y + height) % 2 ^ 32))).bind fun p3 =>
  ssd1306_draw_line p3 (u32_to_i32 ((x + width) % 2 ^ 32)) (u32_to_i32 y)
      (u32_to_i32 ((x + width) % 2 ^ 32)) (u32_to_i32 ((y + height) % 2 ^ 32))

/-! ### Text -/

/-- The local `parts_per_line` of `ssd1306_draw_char_with_font`:
`(font[0] >> 3) + ((font[0] & 7) > 0)`. -/
def parts_per_line (font : Nat → Nat) : Nat :=
  (font 0 >>> 3) + (if (font 0 &&& 7) > 0 then 1 else 0)

/-- Start index `pp` of column `w` of the glyph of `c`, a `uint32_t`:
`(c - font[3]) * font[1] * parts_per_line + w * parts_per_line + 5`. -/
def glyph_index (font : Nat → Nat) (c : Int) (w : Nat) : Nat :=
  (i32_to_u32 ((c - (font 3 : Int)) * (font 1 : Int)) * parts_per_line font
    + w * parts_per_line font + 5) % 2 ^ 32

/-- Embedding of `ssd1306_draw_char_with_font`; `x`, `y`, `scale` are
`uint32_t`, `font` is the byte array `font[i]`, `c` is the value of the
`char` argument. -/
def ssd1306_draw_char_with_font (p : ssd1306_t) (x y scale : Nat) (font : Nat → Nat)
    (c : Int) : ssd1306_t :=
  if c < (font 3 : Int) ∨ c > (font 4 : Int) then p
  else
    (List.range (font 1)).foldl
      (fun q w => (List.range (parts_per_line font)).foldl
        (fun q1 lp => (List.range 8).foldl
          (fun q2 j =>
            if (font ((glyph_index font c w + lp) % 2 ^ 32) >>> j) &&& 1 ≠ 0 then
              ssd1306_draw_square q2 ((x + w * scale) % 2 ^ 32)
                ((y + ((lp <<< 3) + j) * scale) % 2 ^ 32) scale scale
            else q2) q1) q) p

/-- Loop of `ssd1306_draw_string_with_font` over the characters before the
terminator; the counter `x_n` is kept as the `uint32_t` passed on. -/
def draw_string_loop (y scale : Nat) (font : Nat → Nat) :
    List Int → Nat → ssd1306_t → ssd1306_t
  | [], _, p => p
  | c :: s, x_n, p =>
    draw_string_loop y scale font s ((x_n + (font 1 + font 2) * scale) % 2 ^ 32)
      (ssd1306_draw_char_with_font p x_n y scale font c)

/-- Embedding of `ssd1306_draw_string_with_font`; `s` lists the characters
before the terminating zero. -/
def ssd1306_draw_string_with_font (p : ssd1306_t) (x y scale : Nat) (font : Nat → Nat)
    (s : List Int) : ssd1306_t :=
  draw_string_loop y scale font s (x % 2 ^ 32) p

/-! ### Bitmap import -/

/-- Embedding of `ssd1306_bmp_get_val`; `data` is the byte array `data[i]`,
the result is a `uint32_t`. -/
def ssd1306_bmp_get_val (data : Int → Nat) (offset : Int) (size : Nat) : Nat :=
  match size with
  | 1 => data offset
  | 2 => (data offset ||| (data (offset + 1) <<< 8)) % 2 ^ 32
  | 4 => (data offset ||| (data (offset + 1) <<< 8) ||| (data (offset + 2) <<< 16)
      ||| (data (offset + 3) <<< 24)) % 2 ^ 32
  | _ => 0

/-- Header field `bfOffBits`, the pixel-data offset (`uint32_t` at 10). -/
def bfOffBits (data : Int → Nat) : Nat := ssd1306_bmp_get_val data 10 4

/-- Header field `biSize`, the header size (`uint32_t` at 14). -/
def biSize (data : Int → Nat) : Nat := ssd1306_bmp_get_val data 14 4

/-- Header field `biWidth` (`int32_t` at 18). -/
def biWidth (data : Int → Nat) : Int := u32_to_i32 (ssd1306_bmp_get_val data 18 4)

/-- Header field `biHeight` (`int32_t` at 22). -/
def biHeight (data : Int → Nat) : Int := u32_to_i32 (ssd1306_bmp_get_val data 22 4)

/-- Header field `biBitCount` (`uint16_t` at 28). -/
def biBitCount (data : Int → Nat) : Nat := ssd1306_bmp_get_val data 28 2 % 2 ^ 16

/-- Header field `biCompression` (`uint32_t` at 30). -/
def biCompression (data : Int → Nat) : Nat := ssd1306_bmp_get_val data 30 4

/-- The local `table_start`, the `int` value of `14 + biSize`. -/
def table_start (data : Int → Nat) : Int := u32_to_i32 ((14 + biSize data) % 2 ^ 32)

/-- Colour-table entry `i` as the scan reads it:
`(data[t + i*4] << 16) | (data[t + i*4 + 1] << 8) | data[t + i*4 + 2]`. -/
def bmp_table_entry (data : Int → Nat) (table_start : Int) (i : Nat) : Nat :=
  (data (table_start + (i : Int) * 4) <<< 16)
    ||| (data (table_start + (i : Int) * 4 + 1) <<< 8)
    ||| data (table_start + (i : Int) * 4 + 2)

/-- The colour-table scan: the first of the indices 0, 1 whose entry is zero;
`indeterminate` is the value of the uninitialised `color_val` otherwise. -/
def bmp_color_val (data : Int → Nat) (table_start : Int) (indeterminate : Nat) : Nat :=
  match [0, 1].find? (fun i => bmp_table_entry data table_start i = 0) with
  | some i => i
  | none => indeterminate

/-- The row stride `bytes_per_line`, a `uint32_t`, from the `int32_t` width. -/
def bmp_bytes_per_line (biWidth : Int) : Nat :=
  let b : Nat := i32_to_u32 (Int.tdiv biWidth 8 + (if biWidth % 8 ≠ 0 then 1 else 0))
  if b &&& 3 ≠ 0 then ((b ^^^ (b &&& 3)) + 4) % 2 ^ 32 else b

/-- Inner loop of the import: one stored row at `img_data`, drawn at row `y`;
`width` is `biWidth` converted to `uint32_t` by the comparison `x < biWidth`. -/
def bmp_draw_row (data : Int → Nat) (width color_val x_offset y_offset : Nat)
    (q : ssd1306_t) (y : Nat) (img_data : Int) : ssd1306_t :=
  (List.range width).foldl
    (fun q1 x =>
      if ((data (img_data + ((x >>> 3 : Nat) : Int)) >>> (7 - (x &&& 7))) &&& 1) = color_val then
        ssd1306_draw_pixel q1 ((x_offset + x) % 2 ^ 32) ((y_offset + y) % 2 ^ 32)
      else q1) q

/-- Outer loop of the import, `for (y = ...; y != border; y += step)` on
`uint32_t`, with `img_data += bytes_per_line` after each row.  The first
argument bounds the number of tests of the loop condition; `none` when it is
used up. -/
def bmp_row_loop {α : Type} (body : α → Nat → Int → α) (border step bytes_per_line : Nat) :
    Nat → Nat → Int → α → Option α
  | 0, _, _, _ => none
  | fuel + 1, y, img_data, s =>
    if y = border then some s
    else bmp_row_loop body border step bytes_per_line fuel ((y + step) % 2 ^ 32)
      (img_data + (bytes_per_line : Int)) (body s y img_data)

/-- The part of `ssd1306_bmp_show_image_with_offset` after the header checks,
for an arbitrary row action: colour-table scan, stride, and the row loop.  A
`uint32_t` counter stepped by one meets any border within `2^32` steps. -/
def bmp_rows {α : Type} (body : Nat → Nat → α → Nat → Int → α) (indeterminate : Nat)
    (data : Int → Nat) (s : α) : Option α :=
  let color_val := bmp_color_val data (table_start data) indeterminate
  let bytes_per_line := bmp_bytes_per_line (biWidth data)
  let img_data : Int := (bfOffBits data : Int)
  let step : Int := if biHeight data > 0 then -1 else 1
  let border : Int := if biHeight data > 0 then -1 else biHeight data
  bmp_row_loop (body (i32_to_u32 (biWidth data)) color_val) (i32_to_u32 border)
    (i32_to_u32 step) bytes_per_line (2 ^ 32 + 1)
    (i32_to_u32 (if biHeight data > 0 then biHeight data - 1 else 0)) img_data s

/-- Embedding of `ssd1306_bmp_show_image_with_offset`; `size` is a `long`,
`x_offset` and `y_offset` are `uint32_t`. -/
def ssd1306_bmp_show_image_with_offset (indeterminate : Nat) (p : ssd1306_t)
    (data : Int → Nat) (size : Int) (x_offset y_offset : Nat) : Option ssd1306_t :=
  if size < 54 then some p
  else if biBitCount data ≠ 1 then some p
  else if biCompression data ≠ 0 then some p
  else
    bmp_rows (fun width color_val q y img_data =>
      bmp_draw_row data width color_val x_offset y_offset q y img_data) indeterminate data p

/-- The rows the import visits, in order: the counter `y` and the offset of
`img_data` from `data` at each execution of the loop body. -/
def bmp_rows_visited (indeterminate : Nat) (data : Int → Nat) : Option (List (Nat × Int)) :=
  bmp_rows (fun _ _ acc y img_data => acc ++ [(y, img_data)]) indeterminate data []

/-! ## Presentation -/

/-- The array `payload` of `ssd1306_show` as it is passed to `send_commands`. -/
def show_payload (ops : Opcodes) (p : ssd1306_t) : List Nat :=
  let c1 : Nat := 0
  let c2 : Nat := to_u8 ((p.width : Int) - 1)
  let c1 : Nat := if p.width = 64 then (c1 + 32) % 256 else c1
  let c2 : Nat := if p.width = 64 then (c2 + 32) % 256 else c2
  [ops.SET_COL_ADDR % 256, c1, c2, ops.SET_PAGE_ADDR % 256, 0, to_u8 ((p.pages : Int) - 1)]

/-- The bulk data write of `ssd1306_show`, made after the marker byte has been
stored. -/
def show_data (proto : Proto) (p : ssd1306_t) : List BusEvent :=
  match proto with
  | Proto.I2C =>
    [BusEvent.i2c_write p.address (read_bytes p.mem (p.buffer - 1) (p.bufsize + 1))]
  | Proto.PIO_I2C =>
    [BusEvent.pio_i2c_write p.address (read_bytes p.mem (p.buffer - 1) (p.bufsize + 1))]
  | Proto.SPI =>
    [BusEvent.gpio_put p.dc_pin 1] ++ cs_select p
      ++ [BusEvent.spi_write (read_bytes p.mem p.buffer p.bufsize)] ++ cs_deselect p

/-- Embedding of `ssd1306_show`: the device afterwards and the transport calls
made, in order. -/
def ssd1306_show (ops : Opcodes) (proto : Proto) (p : ssd1306_t) :
    ssd1306_t × List BusEvent :=
  let cmds := send_commands proto p (show_payload ops p)
  let p1 := { p with mem := Function.update p.mem (p.buffer - 1) 0x40 }
  (p1, cmds ++ show_data proto p1)

/-! ## Specification vocabulary -/

/-- Address of the byte holding pixel `(px, py)`: `buffer[px + width * (py / 8)]`. -/
def pixel_addr (p : ssd1306_t) (px py : Nat) : Int :=
  p.buffer + ((px + p.width * (py / 8) : Nat) : Int)

/-- Pixel `(px, py)` is set: bit `py mod 8` of its byte. -/
def pixel_set (p : ssd1306_t) (px py : Nat) : Bool :=
  (p.mem (pixel_addr p px py)).testBit (py % 8)

/-- State `r` is state `p` with exactly the display pixels in `S` additionally
set: only memory differs, a byte that holds no such pixel is unchanged, and a
bit of a byte is set afterwards exactly when it was set before or is the bit of
such a pixel. -/
def AddsPixels (p r : ssd1306_t) (S : Nat → Nat → Prop) : Prop :=
  r = { p with mem := r.mem }
  ∧ (∀ a : Int,
      (∀ px py, S px py → px < p.width → py < p.height → a ≠ pixel_addr p px py) →
        r.mem a = p.mem a)
  ∧ (∀ (a : Int) (b : Nat), b < 8 →
      ((r.mem a).testBit b = true ↔
        ((p.mem a).testBit b = true
          ∨ ∃ px py, S px py ∧ px < p.width ∧ py < p.height
              ∧ a = pixel_addr p px py ∧ b = py % 8)))

/-! ## Sample data -/

/-- A 128x64 two-wire display at address `0x3C` whose buffer starts at address
`1` in an all-zero memory. -/
def sample_device : ssd1306_t where
  width := 128
  height := 64
  pages := 8
  address := 0x3C
  cs_pin := 0
  dc_pin := 0
  external_vcc := false
  buffer := 1
  bufsize := 1024
  mem := fun _ => 0

/-- The byte array that holds the list `l` from index 0 and zero elsewhere. -/
def bytes_at (l : List Nat) : Int → Nat :=
  fun i => if 0 ≤ i then l.getD i.toNat 0 else 0

/-- A 66-byte bottom-up bitmap of width 2 and height 1: 54-byte header with
pixel data at offset 62, colour table (black, white) at offset 54, one padded
row `0x80` (left pixel white, right pixel black). -/
def sample_bmp : List Nat :=
  [
    66, 77, 66, 0, 0, 0, 0, 0, 0, 0, 62, 0, 0, 0, 40, 0,
    0, 0, 2, 0, 0, 0, 1, 0, 0, 0, 1, 0, 1, 0, 0, 0,
    0, 0, 4, 0, 0, 0, 19, 11, 0, 0, 19, 11, 0, 0, 2, 0,
    0, 0, 0, 0, 0, 0, 0, 0, 0, 0, 255, 255, 255, 0, 128, 0,
    0, 0 ]

/-- The bitmap `sample_bmp` with the height field `-1` (top-down storage). -/
def sample_bmp_top_down : List Nat :=
  [
    66, 77, 66, 0, 0, 0, 0, 0, 0, 0, 62, 0, 0, 0, 40, 0,
    0, 0, 2, 0, 0, 0, 255, 255, 255, 255, 1, 0, 1, 0, 0, 0,
    0, 0, 4, 0, 0, 0, 19, 11, 0, 0, 19, 11, 0, 0, 2, 0,
    0, 0, 0, 0, 0, 0, 0, 0, 0, 0, 255, 255, 255, 0, 128, 0,
    0, 0 ]

/-- A font blob with glyph height 8, width 2, spacing 1 and the single
character 65, whose glyph has an empty first column and the top bit set in
the second column. -/
def sample_font : Nat → Nat :=
  fun i => [8, 2, 1, 65, 65, 0x00, 0x01].getD i 0

/-! ## Basic bit-level facts -/

theorem shift_mask_eq (y : Nat) : (0x1 <<< (y &&& 0x07)) = 2 ^ (y % 8) := by
  have h : y &&& 0x07 = y % 8 := Nat.and_pow_two_sub_one_eq_mod y 3
  rw [h, Nat.one_shiftLeft]

theorem pixel_index_eq (p : ssd1306_t) (x y : Nat) (hw : p.width < 256)
    (hx : x < p.width) (hy : y < 256) :
    pixel_index p x y = x + p.width * (y / 8) := by
  unfold pixel_index
  rw [Nat.shiftRight_eq_div_pow]
  have h3 : (2 : Nat) ^ 3 = 8 := by norm_num
  rw [h3]
  have h8 : y / 8 < 32 := by omega
  have hm : p.width * (y / 8) ≤ 255 * (y / 8) :=
    Nat.mul_le_mul_right _ (by omega)
  apply Nat.mod_eq_of_lt
  norm_num
  omega

theorem testBit_store (v y b : Nat) (hb : b < 8) :
    ((v ||| (0x1 <<< (y &&& 0x07))) % 256).testBit b
      = (v.testBit b || decide (y % 8 = b)) := by
  rw [shift_mask_eq]
  have h256 : (256 : Nat) = 2 ^ 8 := by norm_num
  rw [h256, Nat.testBit_mod_two_pow, Nat.testBit_or, Nat.testBit_two_pow]
  simp [hb]

/-! ## Claims -/

/-- C1: for a device state with `bufsize = width * pages` and `x < width`,
`y < height`, `ssd1306_draw_pixel` sets bit `y mod 8` of byte
`x + width * (y / 8)` of the buffer, keeps every other bit of that byte, and
leaves every other byte unchanged.  (The fields `width` and `height` are
`uint8_t`; the equation on `bufsize` is not needed for the conclusion.) -/
theorem draw_pixel_sets_bit (p : ssd1306_t) (x y : Nat)
    (hw : p.width < 256) (hh : p.height < 256)
    (_hsz : p.bufsize = p.width * p.pages)
    (hx : x < p.width) (hy : y < p.height) :
    ((ssd1306_draw_pixel p x y).mem
        (p.buffer + ((x + p.width * (y / 8) : Nat) : Int))).testBit (y % 8) = true
    ∧ (∀ b, b < 8 → b ≠ y % 8 →
        ((ssd1306_draw_pixel p x y).mem
            (p.buffer + ((x + p.width * (y / 8) : Nat) : Int))).testBit b
          = (p.mem (p.buffer + ((x + p.width * (y / 8) : Nat) : Int))).testBit b)
    ∧ (∀ a : Int, a ≠ p.buffer + ((x + p.width * (y / 8) : Nat) : Int) →
        (ssd1306_draw_pixel p x y).mem a = p.mem a)
    ∧ (ssd1306_draw_pixel p x y).buffer = p.buffer
    ∧ (ssd1306_draw_pixel p x y).bufsize = p.bufsize := by
  have hidx : pixel_index p x y = x + p.width * (y / 8) :=
    pixel_index_eq p x y hw hx (by omega)
  have hg : ¬ (x ≥ p.width ∨ y ≥ p.height) := by omega
  simp only [ssd1306_draw_pixel, if_neg hg, hidx]
  refine ⟨?_, ?_, ?_, trivial, trivial⟩
  · rw [Function.update_same, testBit_store _ _ _ (Nat.mod_lt _ (by norm_num))]
    simp
  · intro b hb hne
    rw [Function.update_same, testBit_store _ _ _ hb]
    have : ¬ (y % 8 = b) := fun h => hne h.symm
    simp [this]
  · intro a ha
    rw [Function.update_noteq ha]

/-- Witness for C1: pixel `(3, 10)` of a 128x64 display. -/
theorem draw_pixel_sets_bit_witness :
    ((ssd1306_draw_pixel sample_device 3 10).mem
        (sample_device.buffer + ((3 + sample_device.width * (10 / 8) : Nat) : Int))).testBit
        (10 % 8) = true :=
  (draw_pixel_sets_bit sample_device 3 10 (by decide) (by decide) (by decide) (by decide)
    (by decide)).1

/-- C2: when `x >= width` or `y >= height`, `ssd1306_draw_pixel` returns the
device state it was given, so the buffer and all of memory are unchanged byte
for byte. -/
theorem draw_pixel_out_of_bounds (p : ssd1306_t) (x y : Nat)
    (h : x ≥ p.width ∨ y ≥ p.height) :
    ssd1306_draw_pixel p x y = p := by
  unfold ssd1306_draw_pixel
  rw [if_pos h]

/-- Witness for C2: column 128 of a 128x64 display. -/
theorem draw_pixel_out_of_bounds_witness :
    ssd1306_draw_pixel sample_device 128 0 = sample_device :=
  draw_pixel_out_of_bounds sample_device 128 0 (Or.inl (by decide))

theorem read_bytes_length (mem : Int → Nat) (src : Int) (len : Nat) :
    (read_bytes mem src len).length = len := by
  simp [read_bytes]

theorem read_bytes_update_before (mem : Int → Nat) (buf : Int) (v : Nat) (n : Nat) :
    read_bytes (Function.update mem (buf - 1) v) buf n = read_bytes mem buf n := by
  unfold read_bytes
  apply List.map_congr_left
  intro i _
  apply Function.update_noteq
  omega

theorem read_bytes_marker (mem : Int → Nat) (buf : Int) (v : Nat) (n : Nat) :
    read_bytes (Function.update mem (buf - 1) v) (buf - 1) (n + 1)
      = v :: read_bytes mem buf n := by
  have h := read_bytes_update_before mem buf v n
  unfold read_bytes at h ⊢
  rw [List.range_succ_eq_map, List.map_cons, List.map_map, ← h]
  congr 1
  · rw [Nat.cast_zero, add_zero, Function.update_same]
  · apply List.map_congr_left
    intro i _
    simp only [Function.comp]
    congr 1
    push_cast
    ring

/-- C3: the bulk data write of `ssd1306_show` follows the command block; on
the two-wire transports it is one write of `bufsize + 1` bytes, the marker
`0x40` followed by the `bufsize` logical buffer bytes in order; on the
four-wire transport it is one write of exactly the `bufsize` logical buffer
bytes (data/command line high, framed by chip select) without the marker; and
`ssd1306_show` leaves every logical buffer byte as it was. -/
theorem show_bulk_write (ops : Opcodes) (proto : Proto) (p : ssd1306_t) :
    (ssd1306_show ops proto p).2
        = send_commands proto p (show_payload ops p) ++
          (match proto with
           | Proto.I2C =>
             [BusEvent.i2c_write p.address (0x40 :: read_bytes p.mem p.buffer p.bufsize)]
           | Proto.PIO_I2C =>
             [BusEvent.pio_i2c_write p.address (0x40 :: read_bytes p.mem p.buffer p.bufsize)]
           | Proto.SPI =>
             [BusEvent.gpio_put p.dc_pin 1, BusEvent.gpio_put p.cs_pin 0,
              BusEvent.spi_write (read_bytes p.mem p.buffer p.bufsize),
              BusEvent.gpio_put p.cs_pin 1])
    ∧ (0x40 :: read_bytes p.mem p.buffer p.bufsize).length = p.bufsize + 1
    ∧ (read_bytes p.mem p.buffer p.bufsize).length = p.bufsize
    ∧ (∀ i : Nat, (ssd1306_show ops proto p).1.mem (p.buffer + (i : Int))
          = p.mem (p.buffer + (i : Int)))
    ∧ (ssd1306_show ops proto p).1.buffer = p.buffer
    ∧ (ssd1306_show ops proto p).1.bufsize = p.bufsize := by
  refine ⟨?_, ?_, ?_, ?_, rfl, rfl⟩
  · cases proto
    · simp only [ssd1306_show, show_data, read_bytes_marker]
    · simp only [ssd1306_show, show_data, read_bytes_marker]
    · simp only [ssd1306_show, show_data, read_bytes_update_before, cs_select, cs_deselect,
        List.cons_append, List.nil_append]
  · simp [read_bytes_length]
  · exact read_bytes_length _ _ _
  · intro i
    simp only [ssd1306_show]
    apply Function.update_noteq
    omega

/-- C4: the command block that `ssd1306_show` passes to `send_commands` before
the data write is `[SET_COL_ADDR, c0, c1, SET_PAGE_ADDR, 0, pages - 1]` with
`(c0, c1) = (32, width - 1 + 32)` when `width = 64` and `(0, width - 1)`
otherwise, every entry reduced modulo 256. -/
theorem show_command_bytes (ops : Opcodes) (proto : Proto) (p : ssd1306_t) :
    (ssd1306_show ops proto p).2
        = send_commands proto p
            [ops.SET_COL_ADDR % 256,
             (if p.width = 64 then 32 else 0),
             (if p.width = 64 then to_u8 ((p.width : Int) - 1 + 32)
              else to_u8 ((p.width : Int) - 1)),
             ops.SET_PAGE_ADDR % 256, 0, to_u8 ((p.pages : Int) - 1)]
          ++ show_data proto (ssd1306_show ops proto p).1 := by
  have h : show_payload ops p =
      [ops.SET_COL_ADDR % 256,
       (if p.width = 64 then 32 else 0),
       (if p.width = 64 then to_u8 ((p.width : Int) - 1 + 32)
        else to_u8 ((p.width : Int) - 1)),
       ops.SET_PAGE_ADDR % 256, 0, to_u8 ((p.pages : Int) - 1)] := by
    unfold show_payload
    by_cases hw : p.width = 64
    · simp [hw, to_u8]
    · simp [hw]
  simp only [ssd1306_show, h]

theorem init_common_ok_iff (ops : Opcodes) (proto : Proto) (malloc : Nat → Option Int)
    (p : ssd1306_t) (width height : Nat) :
    (ssd1306_init_common ops proto malloc p width height).1 = true
      ↔ ∃ a, malloc ((height / 8) % 256 * (width % 256) + 1) = some a := by
  unfold ssd1306_init_common
  cases h : malloc ((height / 8) % 256 * (width % 256) + 1) <;> simp [h]

theorem init_common_trace (ops : Opcodes) (proto : Proto) (malloc : Nat → Option Int)
    (p : ssd1306_t) (width height : Nat)
    (hok : (ssd1306_init_common ops proto malloc p width height).1 = true) :
    (ssd1306_init_common ops proto malloc p width height).2.2
      = send_commands proto (ssd1306_init_common ops proto malloc p width height).2.1
          (init_cmds ops p.external_vcc width height) := by
  obtain ⟨a, ha⟩ := (init_common_ok_iff ops proto malloc p width height).1 hok
  unfold ssd1306_init_common
  simp [ha]

/-- C5: a successful `ssd1306_init_common` sends, through `send_commands`, a
list of 25 bytes whose entries are fixed except four: the multiplex-ratio
argument `(height - 1) mod 256`, the charge-pump argument (`0x10` with
`external_vcc`, else `0x14`), the COM-pin argument (`0x02` when
`width > 2 * height`, else `0x12`) and the precharge argument (`0x22` with
`external_vcc`, else `0xF1`); every other position is the same for all inputs,
and the lists for the two power modes differ exactly at the charge-pump and
precharge positions. -/
theorem init_command_sequence (ops : Opcodes) (proto : Proto) (malloc : Nat → Option Int)
    (p : ssd1306_t) (width height : Nat)
    (hok : (ssd1306_init_common ops proto malloc p width height).1 = true) :
    (ssd1306_init_common ops proto malloc p width height).2.2
        = send_commands proto (ssd1306_init_common ops proto malloc p width height).2.1
            (init_cmds ops p.external_vcc width height)
    ∧ init_cmds ops p.external_vcc width height
        = [ ops.SET_DISP % 256, ops.SET_DISP_CLK_DIV % 256, 0x80,
            ops.SET_MUX_RATIO % 256, (((height : Int) - 1) % 256).toNat,
            ops.SET_DISP_OFFSET % 256, 0x00, ops.SET_DISP_START_LINE % 256,
            ops.SET_CHARGE_PUMP % 256, (if p.external_vcc = true then 0x10 else 0x14),
            (ops.SET_SEG_REMAP ||| 0x01) % 256, (ops.SET_COM_OUT_DIR ||| 0x08) % 256,
            ops.SET_COM_PIN_CFG % 256, (if width > 2 * height then 0x02 else 0x12),
            ops.SET_CONTRAST % 256, 0xff, ops.SET_PRECHARGE % 256,
            (if p.external_vcc = true then 0x22 else 0xF1),
            ops.SET_VCOM_DESEL % 256, 0x30, ops.SET_ENTIRE_ON % 256,
            ops.SET_NORM_INV % 256, (ops.SET_DISP ||| 0x01) % 256,
            ops.SET_MEM_ADDR % 256, 0x00 ]
    ∧ (init_cmds ops p.external_vcc width height).length = 25
    ∧ (∀ (e : Bool) (w h i : Nat), i ≠ 4 → i ≠ 9 → i ≠ 13 → i ≠ 17 →
        (init_cmds ops e w h)[i]? = (init_cmds ops p.external_vcc width height)[i]?)
    ∧ (∀ i : Nat, (init_cmds ops true width height)[i]? ≠ (init_cmds ops false width height)[i]?
        ↔ (i = 9 ∨ i = 17)) := by
  refine ⟨init_common_trace ops proto malloc p width height hok, rfl, rfl, ?_, ?_⟩
  · intro e w h i h4 h9 h13 h17
    rcases Nat.lt_or_ge i 25 with hi | hi
    · interval_cases i <;> first | rfl | omega
    · rw [List.getElem?_eq_none (by simpa [init_cmds] using hi),
        List.getElem?_eq_none (by simpa [init_cmds] using hi)]
  · intro i
    rcases Nat.lt_or_ge i 25 with hi | hi
    · interval_cases i <;> simp [init_cmds]
    · rw [List.getElem?_eq_none (by simpa [init_cmds] using hi),
        List.getElem?_eq_none (by simpa [init_cmds] using hi)]
      constructor
      · intro h; exact absurd rfl h
      · intro h; omega

/-- Witness for C5: a 128x64 display with an allocator that always succeeds. -/
theorem init_command_sequence_witness :
    (init_cmds datasheet_opcodes sample_device.external_vcc 128 64).length = 25 :=
  (init_command_sequence datasheet_opcodes Proto.I2C (fun _ => some 0) sample_device 128 64
    rfl).2.2.1

/-- C6: with the allocator's answer as a parameter, `ssd1306_init_common`
returns false exactly when the allocation of `bufsize + 1` bytes fails; in
that case it makes no transport call and stores `bufsize = 0`; otherwise it
returns true after passing the whole command array to `send_commands`, which
puts every one of its 25 bytes on the transport. -/
theorem init_fails_iff_alloc_fails (ops : Opcodes) (proto : Proto)
    (malloc : Nat → Option Int) (p : ssd1306_t) (width height : Nat) :
    ((ssd1306_init_common ops proto malloc p width height).1 = false
        ↔ malloc ((height / 8) % 256 * (width % 256) + 1) = none)
    ∧ ((ssd1306_init_common ops proto malloc p width height).1 = false →
        (ssd1306_init_common ops proto malloc p width height).2.2 = []
        ∧ (ssd1306_init_common ops proto malloc p width height).2.1.bufsize = 0)
    ∧ ((ssd1306_init_common ops proto malloc p width height).1 = true →
        (ssd1306_init_common ops proto malloc p width height).2.2
          = send_commands proto (ssd1306_init_common ops proto malloc p width height).2.1
              (init_cmds ops p.external_vcc width height)
        ∧ sent_bytes (ssd1306_init_common ops proto malloc p width height).2.2
          = (match proto with
             | Proto.SPI => init_cmds ops p.external_vcc width height
             | _ => (init_cmds ops p.external_vcc width height).flatMap
                      (fun c => [0x00, c]))) := by
  refine ⟨?_, ?_, ?_⟩
  · unfold ssd1306_init_common
    cases h : malloc ((height / 8) % 256 * (width % 256) + 1) <;> simp [h]
  · unfold ssd1306_init_common
    cases h : malloc ((height / 8) % 256 * (width % 256) + 1) <;> simp [h]
  · intro hok
    have ht := init_common_trace ops proto malloc p width height hok
    refine ⟨ht, ?_⟩
    rw [ht]
    cases proto <;> simp [send_commands, send_command, sent_bytes, cs_select, cs_deselect,
      init_cmds, List.flatMap]

theorem memset_idem (mem : Int → Nat) (dst : Int) (c n : Nat) :
    memset (memset mem dst c n) dst c n = memset mem dst c n := by
  funext a
  unfold memset
  by_cases h : dst ≤ a ∧ a < dst + (n : Int) <;> simp [h]

/-- C7: after `ssd1306_clear` each of the `bufsize` logical buffer bytes is
zero, the fields `width`, `height`, `pages`, `bufsize` (and the buffer
pointer) are unchanged, and clearing twice gives the same state as clearing
once. -/
theorem clear_zeroes_buffer (p : ssd1306_t) :
    (∀ i : Nat, i < p.bufsize → (ssd1306_clear p).mem (p.buffer + (i : Int)) = 0)
    ∧ read_bytes (ssd1306_clear p).mem (ssd1306_clear p).buffer (ssd1306_clear p).bufsize
        = List.replicate p.bufsize 0
    ∧ (ssd1306_clear p).width = p.width
    ∧ (ssd1306_clear p).height = p.height
    ∧ (ssd1306_clear p).pages = p.pages
    ∧ (ssd1306_clear p).bufsize = p.bufsize
    ∧ (ssd1306_clear p).buffer = p.buffer
    ∧ ssd1306_clear (ssd1306_clear p) = ssd1306_clear p := by
  have hz : ∀ i : Nat, i < p.bufsize → (ssd1306_clear p).mem (p.buffer + (i : Int)) = 0 := by
    intro i hi
    simp only [ssd1306_clear, memset]
    rw [if_pos (by omega)]
  refine ⟨hz, ?_, rfl, rfl, rfl, rfl, rfl, ?_⟩
  · apply List.ext_getElem
    · simp [read_bytes, ssd1306_clear]
    · intro i h1 h2
      have hi : i < p.bufsize := by simpa [read_bytes, ssd1306_clear] using h1
      simp only [read_bytes, List.getElem_map, List.getElem_range, List.getElem_replicate]
      exact hz i hi
  · simp only [ssd1306_clear, memset_idem]

/-! ## Pixel-set reasoning -/

theorem adds_geometry {p r : ssd1306_t} {S : Nat → Nat → Prop} (h : AddsPixels p r S) :
    r.width = p.width ∧ r.height = p.height ∧ r.buffer = p.buffer
      ∧ r.bufsize = p.bufsize := by
  have e := h.1
  have e1 := congrArg ssd1306_t.width e
  have e2 := congrArg ssd1306_t.height e
  have e3 := congrArg ssd1306_t.buffer e
  have e4 := congrArg ssd1306_t.bufsize e
  exact ⟨e1, e2, e3, e4⟩

theorem adds_none (p : ssd1306_t) (S : Nat → Nat → Prop)
    (hS : ∀ px py, px < p.width → py < p.height → ¬ S px py) : AddsPixels p p S := by
  refine ⟨rfl, fun _ _ => rfl, ?_⟩
  intro a b _
  constructor
  · intro h; exact Or.inl h
  · rintro (h | ⟨px, py, hs, hx, hy, _⟩)
    · exact h
    · exact absurd hs (hS px py hx hy)

theorem adds_congr {p r : ssd1306_t} {S T : Nat → Nat → Prop} (h : AddsPixels p r S)
    (hST : ∀ px py, px < p.width → py < p.height → (S px py ↔ T px py)) :
    AddsPixels p r T := by
  obtain ⟨h1, h2, h3⟩ := h
  refine ⟨h1, ?_, ?_⟩
  · intro a ha
    apply h2
    intro px py hs hx hy
    exact ha px py ((hST px py hx hy).1 hs) hx hy
  · intro a b hb
    rw [h3 a b hb]
    constructor
    · rintro (h | ⟨px, py, hs, hx, hy, hr⟩)
      · exact Or.inl h
      · exact Or.inr ⟨px, py, (hST px py hx hy).1 hs, hx, hy, hr⟩
    · rintro (h | ⟨px, py, hs, hx, hy, hr⟩)
      · exact Or.inl h
      · exact Or.inr ⟨px, py, (hST px py hx hy).2 hs, hx, hy, hr⟩

theorem adds_trans {p q r : ssd1306_t} {S T : Nat → Nat → Prop}
    (h1 : AddsPixels p q S) (h2 : AddsPixels q r T) :
    AddsPixels p r (fun px py => S px py ∨ T px py) := by
  obtain ⟨gw, gh, gb, _⟩ := adds_geometry h1
  have gaddr : ∀ px py, pixel_addr q px py = pixel_addr p px py := by
    intro px py
    simp only [pixel_addr, gw, gb]
  obtain ⟨e1, f1, b1⟩ := h1
  obtain ⟨e2, f2, b2⟩ := h2
  refine ⟨?_, ?_, ?_⟩
  · rw [e2]
    rw [e1]
  · intro a ha
    rw [f2 a, f1 a]
    · intro px py hs hx hy
      exact ha px py (Or.inl hs) hx hy
    · intro px py hs hx hy
      rw [gaddr]
      rw [gw] at hx
      rw [gh] at hy
      exact ha px py (Or.inr hs) hx hy
  · intro a b hb
    rw [b2 a b hb, b1 a b hb]
    simp only [gw, gh, gaddr]
    constructor
    · rintro ((h | ⟨px, py, hs, hr⟩) | ⟨px, py, hs, hr⟩)
      · exact Or.inl h
      · exact Or.inr ⟨px, py, Or.inl hs, hr⟩
      · exact Or.inr ⟨px, py, Or.inr hs, hr⟩
    · rintro (h | ⟨px, py, hs | hs, hr⟩)
      · exact Or.inl (Or.inl h)
      · exact Or.inl (Or.inr ⟨px, py, hs, hr⟩)
      · exact Or.inr ⟨px, py, hs, hr⟩

theorem draw_pixel_adds (p : ssd1306_t) (x y : Nat) (hw : p.width < 256)
    (hh : p.height < 256) :
    AddsPixels p (ssd1306_draw_pixel p x y) (fun px py => px = x ∧ py = y) := by
  by_cases hg : x ≥ p.width ∨ y ≥ p.height
  · have e : ssd1306_draw_pixel p x y = p := by
      unfold ssd1306_draw_pixel
      rw [if_pos hg]
    rw [e]
    apply adds_none
    rintro px py hx hy ⟨rfl, rfl⟩
    omega
  · have hx : x < p.width := by omega
    have hy : y < p.height := by omega
    have hidx : pixel_index p x y = x + p.width * (y / 8) :=
      pixel_index_eq p x y hw hx (by omega)
    have e : ssd1306_draw_pixel p x y
        = { p with mem := Function.update p.mem (pixel_addr p x y) ((p.mem (pixel_addr p x y) ||| (0x1 <<< (y &&& 0x07))) % 256) } := by
      simp only [ssd1306_draw_pixel, if_neg hg, hidx, pixel_addr]
    rw [e]
    refine ⟨rfl, ?_, ?_⟩
    · intro a ha
      exact Function.update_noteq (ha x y ⟨rfl, rfl⟩ hx hy) _ _
    · intro a b hb
      by_cases hab : a = pixel_addr p x y
      · subst hab
        simp only [Function.update_same]
        rw [testBit_store _ _ _ hb]
        simp only [Bool.or_eq_true, decide_eq_true_eq]
        constructor
        · rintro (h | h)
          · exact Or.inl h
          · exact Or.inr ⟨x, y, ⟨rfl, rfl⟩, hx, hy, rfl, h.symm⟩
        · rintro (h | ⟨px, py, ⟨rfl, rfl⟩, _, _, _, h⟩)
          · exact Or.inl h
          · exact Or.inr h.symm
      · simp only [Function.update_noteq hab]
        constructor
        · intro h; exact Or.inl h
        · rintro (h | ⟨px, py, ⟨rfl, rfl⟩, _, _, h, _⟩)
          · exact h
          · exact absurd h hab

theorem foldl_adds {α : Type} (f : ssd1306_t → α → ssd1306_t) (S : α → Nat → Nat → Prop)
    (hf : ∀ q i, q.width < 256 → q.height < 256 → AddsPixels q (f q i) (S i)) :
    ∀ (l : List α) (p : ssd1306_t), p.width < 256 → p.height < 256 →
      AddsPixels p (l.foldl f p) (fun px py => ∃ i, i ∈ l ∧ S i px py) := by
  intro l
  induction l with
  | nil =>
    intro p _ _
    apply adds_none
    rintro px py _ _ ⟨i, hi, _⟩
    simp at hi
  | cons c l ih =>
    intro p hw hh
    have h1 := hf p c hw hh
    obtain ⟨gw, gh, _, _⟩ := adds_geometry h1
    have h2 := ih (f p c) (by rw [gw]; exact hw) (by rw [gh]; exact hh)
    rw [List.foldl_cons]
    refine adds_congr (adds_trans h1 h2) ?_
    intro px py _ _
    constructor
    · rintro (h | ⟨i, hi, h⟩)
      · exact ⟨c, List.mem_cons_self _ _, h⟩
      · exact ⟨i, List.mem_cons_of_mem _ hi, h⟩
    · rintro ⟨i, hi, h⟩
      rcases List.mem_cons.1 hi with rfl | hi
      · exact Or.inl h
      · exact Or.inr ⟨i, hi, h⟩

theorem pixel_addr_inj (p : ssd1306_t) (px py qx qy : Nat) (hpx : px < p.width)
    (hqx : qx < p.width) (ha : pixel_addr p px py = pixel_addr p qx qy)
    (hb : py % 8 = qy % 8) : px = qx ∧ py = qy := by
  unfold pixel_addr at ha
  have hn : px + p.width * (py / 8) = qx + p.width * (qy / 8) := by
    have := add_left_cancel ha
    exact_mod_cast this
  have hm := congrArg (fun v => v % p.width) hn
  simp only [Nat.add_mul_mod_self_left, Nat.mod_eq_of_lt hpx, Nat.mod_eq_of_lt hqx] at hm
  have hd := congrArg (fun v => v / p.width) hn
  have hwpos : 0 < p.width := by omega
  simp only [Nat.add_mul_div_left _ _ hwpos, Nat.div_eq_of_lt hpx, Nat.div_eq_of_lt hqx,
    Nat.zero_add] at hd
  exact ⟨hm, by omega⟩

/-- Pixel view of `AddsPixels`: a display pixel is set afterwards exactly when
it was set before or belongs to the added set. -/
theorem adds_pixel_view {p r : ssd1306_t} {S : Nat → Nat → Prop} (h : AddsPixels p r S)
    (px py : Nat) (hx : px < p.width) (hy : py < p.height) :
    pixel_set r px py = true ↔ (pixel_set p px py = true ∨ S px py) := by
  obtain ⟨gw, _, gb, _⟩ := adds_geometry h
  have haddr : pixel_addr r px py = pixel_addr p px py := by
    simp only [pixel_addr, gw, gb]
  unfold pixel_set
  rw [haddr, h.2.2 _ _ (Nat.mod_lt _ (by norm_num))]
  constructor
  · rintro (h0 | ⟨qx, qy, hs, hqx, _, ha, hb⟩)
    · exact Or.inl h0
    · obtain ⟨rfl, rfl⟩ := pixel_addr_inj p px py qx qy hx hqx ha hb
      exact Or.inr hs
  · rintro (h0 | hs)
    · exact Or.inl h0
    · exact Or.inr ⟨px, py, hs, hx, hy, rfl, rfl⟩

theorem foldl_const_self {α : Type} (l : List α) (p : ssd1306_t) :
    l.foldl (fun q _ => q) p = p := by
  induction l with
  | nil => rfl
  | cons c l ih => simp

/-- The pixels added by `ssd1306_draw_square`, with the coordinates as the
`uint32_t` sums the code forms. -/
theorem draw_square_adds_mod (p : ssd1306_t) (x y w h : Nat)
    (hw : p.width < 256) (hh : p.height < 256) :
    AddsPixels p (ssd1306_draw_square p x y w h)
      (fun px py => ∃ i, i < w ∧ ∃ j, j < h
        ∧ (px = (x + i) % 2 ^ 32 ∧ py = (y + j) % 2 ^ 32)) := by
  have inner : ∀ (q : ssd1306_t) (i : Nat), q.width < 256 → q.height < 256 →
      AddsPixels q
        ((List.range h).foldl
          (fun r j => ssd1306_draw_pixel r ((x + i) % 2 ^ 32) ((y + j) % 2 ^ 32)) q)
        (fun px py => ∃ j, j ∈ List.range h
          ∧ (px = (x + i) % 2 ^ 32 ∧ py = (y + j) % 2 ^ 32)) := by
    intro q i hqw hqh
    exact foldl_adds
      (fun r j => ssd1306_draw_pixel r ((x + i) % 2 ^ 32) ((y + j) % 2 ^ 32))
      (fun j px py => px = (x + i) % 2 ^ 32 ∧ py = (y + j) % 2 ^ 32)
      (fun r j hrw hrh => draw_pixel_adds r _ _ hrw hrh) (List.range h) q hqw hqh
  have outer := foldl_adds
    (fun q i => (List.range h).foldl
      (fun r j => ssd1306_draw_pixel r ((x + i) % 2 ^ 32) ((y + j) % 2 ^ 32)) q)
    (fun i px py => ∃ j, j ∈ List.range h
      ∧ (px = (x + i) % 2 ^ 32 ∧ py = (y + j) % 2 ^ 32))
    inner (List.range w) p hw hh
  refine adds_congr outer ?_
  intro px py _ _
  simp only [List.mem_range]

/-- The pixels added by `ssd1306_draw_square` when its coordinates do not wrap. -/
theorem draw_square_adds (p : ssd1306_t) (x y w h : Nat)
    (hw : p.width < 256) (hh : p.height < 256)
    (hxw : x + w < 2 ^ 32) (hyh : y + h < 2 ^ 32) :
    AddsPixels p (ssd1306_draw_square p x y w h)
      (fun px py => x ≤ px ∧ px < x + w ∧ y ≤ py ∧ py < y + h) := by
  refine adds_congr (draw_square_adds_mod p x y w h hw hh) ?_
  intro px py _ _
  constructor
  · rintro ⟨i, hi, j, hj, rfl, rfl⟩
    rw [Nat.mod_eq_of_lt (by omega), Nat.mod_eq_of_lt (by omega)]
    omega
  · rintro ⟨h1, h2, h3, h4⟩
    refine ⟨px - x, by omega, py - y, by omega, ?_, ?_⟩
    · rw [Nat.mod_eq_of_lt (by omega)]; omega
    · rw [Nat.mod_eq_of_lt (by omega)]; omega

/-- C10: for `x + w < 2^32` and `y + h < 2^32`, `ssd1306_draw_square` returns
the state it was given with exactly the display pixels `(px, py)`,
`x <= px < x + w`, `y <= py < y + h`, additionally set and nothing else
changed: a display pixel is set afterwards exactly when it was set before or
lies in the rectangle; with `w = 0` or `h = 0` the state is returned as it
was.  (The fields `width` and `height` are `uint8_t`.) -/
theorem draw_square_fills_rectangle (p : ssd1306_t) (x y w h : Nat)
    (hw : p.width < 256) (hh : p.height < 256)
    (hxw : x + w < 2 ^ 32) (hyh : y + h < 2 ^ 32) :
    AddsPixels p (ssd1306_draw_square p x y w h)
        (fun px py => x ≤ px ∧ px < x + w ∧ y ≤ py ∧ py < y + h)
    ∧ (∀ px py, px < p.width → py < p.height →
        (pixel_set (ssd1306_draw_square p x y w h) px py = true
          ↔ (pixel_set p px py = true ∨ (x ≤ px ∧ px < x + w ∧ y ≤ py ∧ py < y + h))))
    ∧ (w = 0 ∨ h = 0 → ssd1306_draw_square p x y w h = p) := by
  have hadd := draw_square_adds p x y w h hw hh hxw hyh
  refine ⟨hadd, fun px py hpx hpy => adds_pixel_view hadd px py hpx hpy, ?_⟩
  rintro (rfl | rfl)
  · rfl
  · simp only [ssd1306_draw_square, List.range_zero, List.foldl_nil]
    exact foldl_const_self _ _

/-- Witness for C10: a 3x2 rectangle at `(4, 5)` on a 128x64 display. -/
theorem draw_square_fills_rectangle_witness :
    AddsPixels sample_device (ssd1306_draw_square sample_device 4 5 3 2)
      (fun px py => 4 ≤ px ∧ px < 4 + 3 ∧ 5 ≤ py ∧ py < 5 + 2) :=
  (draw_square_fills_rectangle sample_device 4 5 3 2 (by decide) (by decide)
    (by norm_num) (by norm_num)).1

/-! ## Single-precision facts -/

theorem round_half_even_natCast (k : Nat) : round_half_even (k : ℚ) = (k : Int) := by
  unfold round_half_even
  have hf : ⌊(k : ℚ)⌋ = (k : Int) := Int.floor_natCast k
  rw [hf]
  have h0 : (k : ℚ) - ((k : Int) : ℚ) < 1 / 2 := by
    rw [Int.cast_natCast, sub_self]
    norm_num
  rw [if_pos h0]

theorem ilog2_natCast (n : Nat) (hn : n ≠ 0) : ilog2 (n : ℚ) = (Nat.log2 n : Int) := by
  unfold ilog2
  have h1 : Nat.log2 1 = 0 := by
    have := (Nat.log2_lt (n := 1) (k := 1) (by norm_num)).2 (by norm_num)
    omega
  have hle : (2 : ℚ) ^ (Nat.log2 n) ≤ (n : ℚ) := by
    exact_mod_cast Nat.log2_self_le hn
  simp only [Rat.num_natCast, Rat.den_natCast, Int.natAbs_ofNat, h1]
  rw [if_pos]
  · simp
  · simpa using hle

theorem f32_round_natCast (n : Nat) (h : n < 2 ^ 24) : f32_round (n : ℚ) = (n : ℚ) := by
  by_cases hn : n = 0
  · subst hn
    simp [f32_round]
  · have hq : (n : ℚ) ≠ 0 := by exact_mod_cast hn
    have hpos : (0 : ℚ) < (n : ℚ) := by
      exact_mod_cast Nat.pos_of_ne_zero hn
    have hl : Nat.log2 n < 24 := (Nat.log2_lt hn).2 h
    unfold f32_round
    rw [if_neg hq, abs_of_pos hpos, ilog2_natCast n hn, if_neg (not_lt.2 hpos.le)]
    dsimp only
    have he : max ((Nat.log2 n : Int) - 23) (-149) = -((23 - Nat.log2 n : Nat) : Int) := by
      omega
    rw [he]
    have hs : (n : ℚ) / (2 : ℚ) ^ (-((23 - Nat.log2 n : Nat) : Int))
        = ((n * 2 ^ (23 - Nat.log2 n) : Nat) : ℚ) := by
      rw [zpow_neg, zpow_natCast]
      push_cast
      field_simp
    rw [hs, round_half_even_natCast, zpow_neg, zpow_natCast]
    push_cast
    field_simp

theorem f32_to_u32_natCast (n : Nat) (h : n < 2 ^ 32) : f32_to_u32 (n : ℚ) = some n := by
  unfold f32_to_u32
  have h1 : (-1 : ℚ) < (n : ℚ) := by
    have : (0 : ℚ) ≤ (n : ℚ) := Nat.cast_nonneg n
    linarith
  have h2 : (n : ℚ) < 2 ^ 32 := by exact_mod_cast h
  rw [if_pos ⟨h1, h2⟩, Int.floor_natCast, Int.toNat_natCast]

/-- With slope zero every column of the second loop of `ssd1306_draw_line`
gets the row `y1`. -/
theorem line_step_flat (x1 : Int) (y : Nat) (hy : y < 2 ^ 24) (q : ssd1306_t) (i : Int) :
    line_step 0 x1 (y : Int) q i = some (ssd1306_draw_pixel q (i32_to_u32 i) y) := by
  have hv : f32_add (f32_mul 0 (i32_to_f32 (i - x1))) (i32_to_f32 (y : Int)) = (y : ℚ) := by
    have h0 : f32_round 0 = 0 := by simp [f32_round]
    simp only [f32_add, f32_mul, i32_to_f32, zero_mul, h0, zero_add, Int.cast_natCast]
    rw [f32_round_natCast y hy, f32_round_natCast y hy]
  unfold line_step
  rw [hv, f32_to_u32_natCast y (lt_trans hy (by norm_num))]

theorem slope_flat (d : Int) : f32_div (i32_to_f32 (0 : Int)) (i32_to_f32 d) = 0 := by
  simp [f32_div, i32_to_f32, f32_round]

theorem foldlM_some {α : Type} (f : ssd1306_t → α → Option ssd1306_t)
    (g : ssd1306_t → α → ssd1306_t) (hfg : ∀ q i, f q i = some (g q i)) :
    ∀ (l : List α) (p : ssd1306_t), l.foldlM f p = some (l.foldl g p) := by
  intro l
  induction l with
  | nil => intro p; rfl
  | cons c l ih =>
    intro p
    rw [List.foldlM_cons, hfg, List.foldl_cons]
    exact ih (g p c)

/-! ## Lines -/

theorem mem_int_range (lo hi i : Int) : i ∈ int_range lo hi ↔ (lo ≤ i ∧ i ≤ hi) := by
  simp only [int_range, List.mem_map, List.mem_range]
  constructor
  · rintro ⟨k, hk, rfl⟩
    omega
  · rintro ⟨h1, h2⟩
    exact ⟨(i - lo).toNat, by omega, by omega⟩

theorem int_range_single (a : Int) : int_range a a = [a] := by
  simp [int_range, List.range_succ]

theorem i32_to_u32_natCast (n : Nat) (h : n < 2 ^ 32) : i32_to_u32 (n : Int) = n := by
  unfold i32_to_u32
  norm_num at h ⊢
  omega

/-- A call with `x1 > x2` draws the single pixel `(x2, y2)`: both calls of
`swap` overwrite the first endpoint with the second. -/
theorem draw_line_descending_x (p : ssd1306_t) (x1 y1 x2 y2 : Int) (hx : x1 > x2)
    (hy : y2 ≠ 2 ^ 31 - 1) :
    ssd1306_draw_line p x1 y1 x2 y2
      = some (ssd1306_draw_pixel p (i32_to_u32 x2) (i32_to_u32 y2)) := by
  norm_num at hy
  simp [ssd1306_draw_line, swap, hx, hy, int_range_single]

/-- A vertical call with `y1 > y2` draws the single pixel `(x, y2)`. -/
theorem draw_line_descending_y (p : ssd1306_t) (x y1 y2 : Int) (hy : y1 > y2)
    (hy2 : y2 ≠ 2 ^ 31 - 1) :
    ssd1306_draw_line p x y1 x y2
      = some (ssd1306_draw_pixel p (i32_to_u32 x) (i32_to_u32 y2)) := by
  norm_num at hy2
  simp [ssd1306_draw_line, swap, hy, hy2, int_range_single]

theorem draw_line_vertical (p : ssd1306_t) (x y1 y2 : Int) (hy : y1 ≤ y2)
    (hy2 : y2 ≠ 2 ^ 31 - 1) :
    ssd1306_draw_line p x y1 x y2
      = some ((int_range y1 y2).foldl
          (fun q i => ssd1306_draw_pixel q (i32_to_u32 x) (i32_to_u32 i)) p) := by
  have h : ¬ (y1 > y2) := by omega
  norm_num at hy2
  simp [ssd1306_draw_line, h, hy2]

theorem draw_line_horizontal (p : ssd1306_t) (x1 x2 : Int) (y : Nat) (h0 : 0 ≤ x1)
    (hx : x1 < x2) (hx2 : x2 < 2 ^ 31 - 1) (hy : y < 2 ^ 24) :
    ssd1306_draw_line p x1 (y : Int) x2 (y : Int)
      = some ((int_range x1 x2).foldl
          (fun q i => ssd1306_draw_pixel q (i32_to_u32 i) y) p) := by
  have h1 : ¬ (x1 > x2) := by omega
  have h2 : ¬ (x1 = x2) := by omega
  have h3 : ¬ ((y : Int) - (y : Int) < -(2 ^ 31) ∨ 2 ^ 31 ≤ (y : Int) - (y : Int)
      ∨ 2 ^ 31 ≤ x2 - x1 ∨ x2 = 2 ^ 31 - 1) := by
    norm_num at hx2 ⊢
    omega
  unfold ssd1306_draw_line
  simp only [if_neg h1, if_neg h2]
  rw [if_neg h3]
  simp only [sub_self, slope_flat]
  exact foldlM_some _ _ (fun q i => line_step_flat x1 y hy q i) _ p

/-- After a clear, the pixels set inside the logical buffer are exactly the
pixels added since. -/
theorem adds_on_cleared (p r : ssd1306_t) (S : Nat → Nat → Prop)
    (h : AddsPixels (ssd1306_clear p) r S) (px py : Nat) (hx : px < p.width)
    (hy : py < p.height) (hin : px + p.width * (py / 8) < p.bufsize) :
    pixel_set r px py = true ↔ S px py := by
  obtain ⟨gw, _, gb, _⟩ := adds_geometry h
  have hcw : (ssd1306_clear p).width = p.width := rfl
  have hch : (ssd1306_clear p).height = p.height := rfl
  have haddr : pixel_addr r px py = pixel_addr (ssd1306_clear p) px py := by
    simp only [pixel_addr, gw, gb]
  have hzero : (ssd1306_clear p).mem (pixel_addr (ssd1306_clear p) px py) = 0 := by
    simp only [ssd1306_clear, memset, pixel_addr]
    rw [if_pos (by omega)]
  unfold pixel_set
  rw [haddr, h.2.2 _ _ (Nat.mod_lt _ (by norm_num)), hzero]
  constructor
  · rintro (h0 | ⟨qx, qy, hs, hqx, _, ha, hb⟩)
    · simp at h0
    · rw [hcw] at hqx
      obtain ⟨rfl, rfl⟩ := pixel_addr_inj (ssd1306_clear p) px py qx qy hx hqx ha hb
      exact hs
  · intro hs
    exact Or.inr ⟨px, py, hs, hx, hy, rfl, rfl⟩

theorem line_pixels_adds (p : ssd1306_t) (hw : p.width < 256) (hh : p.height < 256)
    (lo hi : Nat) (hhi : hi < 2 ^ 32) (c : Nat) :
    AddsPixels p
        ((int_range (lo : Int) (hi : Int)).foldl
          (fun q i => ssd1306_draw_pixel q (i32_to_u32 i) c) p)
        (fun px py => py = c ∧ lo ≤ px ∧ px ≤ hi)
    ∧ AddsPixels p
        ((int_range (lo : Int) (hi : Int)).foldl
          (fun q i => ssd1306_draw_pixel q c (i32_to_u32 i)) p)
        (fun px py => px = c ∧ lo ≤ py ∧ py ≤ hi) := by
  have key : ∀ v : Nat, (∃ i : Int, i ∈ int_range (lo : Int) (hi : Int) ∧ v = i32_to_u32 i)
      ↔ (lo ≤ v ∧ v ≤ hi) := by
    intro v
    constructor
    · rintro ⟨i, hi1, rfl⟩
      rw [mem_int_range] at hi1
      obtain ⟨k, rfl⟩ := Int.eq_ofNat_of_zero_le (le_trans (Int.ofNat_nonneg lo) hi1.1)
      rw [i32_to_u32_natCast k (by omega)]
      omega
    · rintro ⟨h1, h2⟩
      refine ⟨(v : Int), (mem_int_range _ _ _).2 ⟨by omega, by omega⟩, ?_⟩
      rw [i32_to_u32_natCast v (by omega)]
  constructor
  · refine adds_congr (foldl_adds (fun q i => ssd1306_draw_pixel q (i32_to_u32 i) c)
      (fun i px py => px = i32_to_u32 i ∧ py = c)
      (fun q i hqw hqh => draw_pixel_adds q _ _ hqw hqh) _ p hw hh) ?_
    intro px py _ _
    rw [← key px]
    constructor
    · rintro ⟨i, hi1, h1, h2⟩
      exact ⟨h2, i, hi1, h1⟩
    · rintro ⟨h2, i, hi1, h1⟩
      exact ⟨i, hi1, h1, h2⟩
  · refine adds_congr (foldl_adds (fun q i => ssd1306_draw_pixel q c (i32_to_u32 i))
      (fun i px py => px = c ∧ py = i32_to_u32 i)
      (fun q i hqw hqh => draw_pixel_adds q _ _ hqw hqh) _ p hw hh) ?_
    intro px py _ _
    rw [← key py]
    constructor
    · rintro ⟨i, hi1, h1, h2⟩
      exact ⟨h1, i, hi1, h2⟩
    · rintro ⟨h1, i, hi1, h2⟩
      exact ⟨i, hi1, h1, h2⟩

theorem axis_line_horizontal (p : ssd1306_t) (hw : p.width < 256) (hh : p.height < 256)
    (x1 x2 y : Nat) (h12 : x1 ≤ x2) (hx2 : x2 < p.width) (hy : y < p.height) :
    ∃ r, ssd1306_draw_line p (x1 : Int) (y : Int) (x2 : Int) (y : Int) = some r
      ∧ AddsPixels p r (fun px py => py = y ∧ x1 ≤ px ∧ px ≤ x2) := by
  rcases Nat.lt_or_ge x1 x2 with hlt | hge
  · refine ⟨_, draw_line_horizontal p (x1 : Int) (x2 : Int) y (by omega) (by omega)
      (by norm_num; omega) (by norm_num; omega), ?_⟩
    exact (line_pixels_adds p hw hh x1 x2 (by norm_num; omega) y).1
  · have he : x1 = x2 := by omega
    subst he
    refine ⟨_, draw_line_vertical p (x1 : Int) (y : Int) (y : Int) (le_refl _)
      (by norm_num; omega), ?_⟩
    rw [i32_to_u32_natCast x1 (by norm_num; omega)]
    refine adds_congr (line_pixels_adds p hw hh y y (by norm_num; omega) x1).2 ?_
    intro px py _ _
    omega

theorem axis_line_vertical (p : ssd1306_t) (hw : p.width < 256) (hh : p.height < 256)
    (x y1 y2 : Nat) (h12 : y1 ≤ y2) (hy2 : y2 < p.height) (hx : x < p.width) :
    ∃ r, ssd1306_draw_line p (x : Int) (y1 : Int) (x : Int) (y2 : Int) = some r
      ∧ AddsPixels p r (fun px py => px = x ∧ y1 ≤ py ∧ py ≤ y2) := by
  refine ⟨_, draw_line_vertical p (x : Int) (y1 : Int) (y2 : Int) (by omega)
    (by norm_num; omega), ?_⟩
  rw [i32_to_u32_natCast x (by norm_num; omega)]
  exact (line_pixels_adds p hw hh y1 y2 (by norm_num; omega) x).2

/-- C8 (code defect): evaluation of `ssd1306_draw_line` on a 128x64 display
with the endpoints of an axis-aligned segment in both orders.  Given right to
left, `(10,0)-(0,0)`, or bottom to top, `(5,10)-(5,0)`, the call draws only
the second endpoint, because `swap` copies the second value over the first and
stores it back; given in ascending order the whole segment is drawn, so the
two orders give different buffers. -/
theorem draw_line_reversed_endpoints :
    ssd1306_draw_line sample_device 10 0 0 0
        = some (ssd1306_draw_pixel sample_device 0 0)
    ∧ pixel_set (ssd1306_draw_pixel sample_device 0 0) 10 0 = false
    ∧ (∃ r, ssd1306_draw_line sample_device 0 0 10 0 = some r ∧ pixel_set r 10 0 = true)
    ∧ ssd1306_draw_line sample_device 10 0 0 0 ≠ ssd1306_draw_line sample_device 0 0 10 0
    ∧ ssd1306_draw_line sample_device 5 10 5 0
        = some (ssd1306_draw_pixel sample_device 5 0)
    ∧ pixel_set (ssd1306_draw_pixel sample_device 5 0) 5 10 = false
    ∧ (∃ r, ssd1306_draw_line sample_device 5 0 5 10 = some r ∧ pixel_set r 5 10 = true)
    ∧ ssd1306_draw_line sample_device 5 10 5 0 ≠ ssd1306_draw_line sample_device 5 0 5 10 := by
  have hw : sample_device.width < 256 := by decide
  have hh : sample_device.height < 256 := by decide
  have a1 : ssd1306_draw_line sample_device 10 0 0 0
      = some (ssd1306_draw_pixel sample_device 0 0) := by
    have h := draw_line_descending_x sample_device 10 0 0 0 (by norm_num) (by norm_num)
    have e : i32_to_u32 0 = 0 := i32_to_u32_natCast 0 (by norm_num)
    rw [e] at h
    exact h
  have a2 : pixel_set (ssd1306_draw_pixel sample_device 0 0) 10 0 = false := by
    decide
  have a3 : ∃ r, ssd1306_draw_line sample_device 0 0 10 0 = some r
      ∧ pixel_set r 10 0 = true := by
    obtain ⟨r, hr, hadd⟩ := axis_line_horizontal sample_device hw hh 0 10 0
      (by decide) (by decide) (by decide)
    refine ⟨r, by simpa using hr, ?_⟩
    obtain ⟨gw, _, gb, _⟩ := adds_geometry hadd
    unfold pixel_set
    have haddr : pixel_addr r 10 0 = pixel_addr sample_device 10 0 := by
      simp only [pixel_addr, gw, gb]
    rw [haddr]
    exact (hadd.2.2 _ _ (by decide)).2
      (Or.inr ⟨10, 0, ⟨rfl, by decide, le_refl _⟩, by decide, by decide, rfl, rfl⟩)
  have b1 : ssd1306_draw_line sample_device 5 10 5 0
      = some (ssd1306_draw_pixel sample_device 5 0) := by
    have h := draw_line_descending_y sample_device 5 10 0 (by norm_num) (by norm_num)
    have e0 : i32_to_u32 0 = 0 := i32_to_u32_natCast 0 (by norm_num)
    have e5 : i32_to_u32 5 = 5 := i32_to_u32_natCast 5 (by norm_num)
    rw [e0, e5] at h
    exact h
  have b2 : pixel_set (ssd1306_draw_pixel sample_device 5 0) 5 10 = false := by
    decide
  have b3 : ∃ r, ssd1306_draw_line sample_device 5 0 5 10 = some r
      ∧ pixel_set r 5 10 = true := by
    obtain ⟨r, hr, hadd⟩ := axis_line_vertical sample_device hw hh 5 0 10
      (by decide) (by decide) (by decide)
    refine ⟨r, by simpa using hr, ?_⟩
    obtain ⟨gw, _, gb, _⟩ := adds_geometry hadd
    unfold pixel_set
    have haddr : pixel_addr r 5 10 = pixel_addr sample_device 5 10 := by
      simp only [pixel_addr, gw, gb]
    rw [haddr]
    exact (hadd.2.2 _ _ (by decide)).2
      (Or.inr ⟨5, 10, ⟨rfl, by decide, le_refl _⟩, by decide, by decide, rfl, rfl⟩)
  refine ⟨a1, a2, a3, ?_, b1, b2, b3, ?_⟩
  · intro heq
    obtain ⟨r, hr, hset⟩ := a3
    rw [← heq, a1] at hr
    rw [← Option.some.inj hr, a2] at hset
    exact Bool.noConfusion hset
  · intro heq
    obtain ⟨r, hr, hset⟩ := b3
    rw [← heq, b1] at hr
    rw [← Option.some.inj hr, b2] at hset
    exact Bool.noConfusion hset

/-- C9: on a cleared buffer, an axis-aligned segment inside the display given
with ascending endpoints is drawn exactly.  `ssd1306_draw_line` returns a
state that is the cleared state with exactly the segment's pixels added, and
among the pixels stored in the logical buffer those set are exactly the
pixels `(x1,y)..(x2,y)` of a horizontal segment, respectively `(x,y1)..(x,y2)`
of a vertical one.  (The fields `width` and `height` are `uint8_t`.) -/
theorem draw_line_axis_aligned (p : ssd1306_t) (hw : p.width < 256) (hh : p.height < 256) :
    (∀ x1 x2 y : Nat, x1 ≤ x2 → x2 < p.width → y < p.height →
      ∃ r, ssd1306_draw_line (ssd1306_clear p) (x1 : Int) (y : Int) (x2 : Int) (y : Int)
            = some r
        ∧ AddsPixels (ssd1306_clear p) r (fun px py => py = y ∧ x1 ≤ px ∧ px ≤ x2)
        ∧ (∀ px py, px < p.width → py < p.height → px + p.width * (py / 8) < p.bufsize →
            (pixel_set r px py = true ↔ (py = y ∧ x1 ≤ px ∧ px ≤ x2))))
    ∧ (∀ x y1 y2 : Nat, y1 ≤ y2 → y2 < p.height → x < p.width →
      ∃ r, ssd1306_draw_line (ssd1306_clear p) (x : Int) (y1 : Int) (x : Int) (y2 : Int)
            = some r
        ∧ AddsPixels (ssd1306_clear p) r (fun px py => px = x ∧ y1 ≤ py ∧ py ≤ y2)
        ∧ (∀ px py, px < p.width → py < p.height → px + p.width * (py / 8) < p.bufsize →
            (pixel_set r px py = true ↔ (px = x ∧ y1 ≤ py ∧ py ≤ y2)))) := by
  constructor
  · intro x1 x2 y h12 hx2 hy
    obtain ⟨r, hr, hadd⟩ := axis_line_horizontal (ssd1306_clear p) hw hh x1 x2 y h12 hx2 hy
    exact ⟨r, hr, hadd, fun px py hpx hpy hin => adds_on_cleared p r _ hadd px py hpx hpy hin⟩
  · intro x y1 y2 h12 hy2 hx
    obtain ⟨r, hr, hadd⟩ := axis_line_vertical (ssd1306_clear p) hw hh x y1 y2 h12 hy2 hx
    exact ⟨r, hr, hadd, fun px py hpx hpy hin => adds_on_cleared p r _ hadd px py hpx hpy hin⟩

/-- Witness for C9: the segments `(0,0)..(10,0)` and `(5,0)..(5,10)` on a
cleared 128x64 display. -/
theorem draw_line_axis_aligned_witness :
    (∃ r, ssd1306_draw_line (ssd1306_clear sample_device) ((0 : Nat) : Int) ((0 : Nat) : Int)
            ((10 : Nat) : Int) ((0 : Nat) : Int) = some r
        ∧ AddsPixels (ssd1306_clear sample_device) r (fun px py => py = 0 ∧ 0 ≤ px ∧ px ≤ 10)
        ∧ (∀ px py, px < sample_device.width → py < sample_device.height →
            px + sample_device.width * (py / 8) < sample_device.bufsize →
            (pixel_set r px py = true ↔ (py = 0 ∧ 0 ≤ px ∧ px ≤ 10))))
    ∧ (∃ r, ssd1306_draw_line (ssd1306_clear sample_device) ((5 : Nat) : Int) ((0 : Nat) : Int)
            ((5 : Nat) : Int) ((10 : Nat) : Int) = some r
        ∧ AddsPixels (ssd1306_clear sample_device) r (fun px py => px = 5 ∧ 0 ≤ py ∧ py ≤ 10)
        ∧ (∀ px py, px < sample_device.width → py < sample_device.height →
            px + sample_device.width * (py / 8) < sample_device.bufsize →
            (pixel_set r px py = true ↔ (px = 5 ∧ 0 ≤ py ∧ py ≤ 10)))) :=
  ⟨(draw_line_axis_aligned sample_device (by decide) (by decide)).1 0 10 0
      (by decide) (by decide) (by decide),
   (draw_line_axis_aligned sample_device (by decide) (by decide)).2 5 0 10
      (by decide) (by decide) (by decide)⟩

/-! ## Squares -/

theorem u32_to_i32_natCast (n : Nat) (h : n < 2 ^ 31) : u32_to_i32 n = (n : Int) := by
  unfold u32_to_i32
  have h1 : n % 2 ^ 32 = n := Nat.mod_eq_of_lt (lt_trans h (by norm_num))
  rw [h1, if_pos h]

/-- The four lines of `ssd1306_draw_empty_square` inside the display add
exactly the outline of the box spanning `(x, y)..(x + w, y + h)`. -/
theorem empty_square_adds (p : ssd1306_t) (hw : p.width < 256) (hh : p.height < 256)
    (x y w h : Nat) (hx : x + w < p.width) (hy : y + h < p.height) :
    ∃ r, ssd1306_draw_empty_square p x y w h = some r
      ∧ AddsPixels p r (fun px py => x ≤ px ∧ px ≤ x + w ∧ y ≤ py ∧ py ≤ y + h
          ∧ (px = x ∨ px = x + w ∨ py = y ∨ py = y + h)) := by
  have cx : u32_to_i32 x = (x : Int) := u32_to_i32_natCast x (by norm_num; omega)
  have cy : u32_to_i32 y = (y : Int) := u32_to_i32_natCast y (by norm_num; omega)
  have cxw : u32_to_i32 ((x + w) % 2 ^ 32) = ((x + w : Nat) : Int) := by
    rw [Nat.mod_eq_of_lt (by norm_num; omega)]
    exact u32_to_i32_natCast _ (by norm_num; omega)
  have cyh : u32_to_i32 ((y + h) % 2 ^ 32) = ((y + h : Nat) : Int) := by
    rw [Nat.mod_eq_of_lt (by norm_num; omega)]
    exact u32_to_i32_natCast _ (by norm_num; omega)
  obtain ⟨r1, e1, a1⟩ := axis_line_horizontal p hw hh x (x + w) y (by omega) hx (by omega)
  obtain ⟨g1w, g1h, _, _⟩ := adds_geometry a1
  obtain ⟨r2, e2, a2⟩ := axis_line_horizontal r1 (by omega) (by omega) x (x + w) (y + h)
    (by omega) (by omega) (by omega)
  obtain ⟨g2w, g2h, _, _⟩ := adds_geometry a2
  obtain ⟨r3, e3, a3⟩ := axis_line_vertical r2 (by omega) (by omega) x y (y + h)
    (by omega) (by omega) (by omega)
  obtain ⟨g3w, g3h, _, _⟩ := adds_geometry a3
  obtain ⟨r4, e4, a4⟩ := axis_line_vertical r3 (by omega) (by omega) (x + w) y (y + h)
    (by omega) (by omega) (by omega)
  refine ⟨r4, ?_, ?_⟩
  · unfold ssd1306_draw_empty_square
    rw [cx, cy, cxw, cyh, e1, Option.some_bind, e2, Option.some_bind, e3, Option.some_bind, e4]
  · refine adds_congr (adds_trans (adds_trans (adds_trans a1 a2) a3) a4) ?_
    intro px py _ _
    constructor
    · rintro (((h1 | h1) | h1) | h1) <;> omega
    · rintro ⟨h1, h2, h3, h4, h5 | h5 | h5 | h5⟩
      · exact Or.inl (Or.inr ⟨h5, by omega, by omega⟩)
      · exact Or.inr ⟨h5, by omega, by omega⟩
      · exact Or.inl (Or.inl (Or.inl ⟨h5, by omega, by omega⟩))
      · exact Or.inl (Or.inl (Or.inr ⟨h5, by omega, by omega⟩))

/-- C11 (as stated, refuted): on the cleared 128x64 sample display
`ssd1306_draw_square(0, 0, 10, 10)` leaves the pixels `(10, 0)`, `(0, 10)` and
`(10, 10)` clear, although they belong to the box `0 <= px, py <= 10`, and
`(10, 10)` is a corner of the outline that
`ssd1306_draw_empty_square(0, 0, 10, 10)` draws. -/
theorem draw_square_misses_far_edges :
    pixel_set (ssd1306_draw_square (ssd1306_clear sample_device) 0 0 10 10) 10 0 = false
    ∧ pixel_set (ssd1306_draw_square (ssd1306_clear sample_device) 0 0 10 10) 0 10 = false
    ∧ pixel_set (ssd1306_draw_square (ssd1306_clear sample_device) 0 0 10 10) 10 10 = false
    ∧ (∃ r, ssd1306_draw_empty_square (ssd1306_clear sample_device) 0 0 10 10 = some r
        ∧ pixel_set r 10 10 = true) := by
  have hw : (ssd1306_clear sample_device).width < 256 := by decide
  have hh : (ssd1306_clear sample_device).height < 256 := by decide
  have hadd := draw_square_adds (ssd1306_clear sample_device) 0 0 10 10 hw hh
    (by norm_num) (by norm_num)
  have key : ∀ px py, px < 128 → py < 64 →
      (pixel_set (ssd1306_draw_square (ssd1306_clear sample_device) 0 0 10 10) px py = true
        ↔ (0 ≤ px ∧ px < 0 + 10 ∧ 0 ≤ py ∧ py < 0 + 10)) := by
    intro px py hpx hpy
    apply adds_on_cleared sample_device _ _ hadd px py hpx hpy
    show px + 128 * (py / 8) < 1024
    omega
  refine ⟨?_, ?_, ?_, ?_⟩
  · rw [Bool.eq_false_iff, Ne, key 10 0 (by norm_num) (by norm_num)]
    omega
  · rw [Bool.eq_false_iff, Ne, key 0 10 (by norm_num) (by norm_num)]
    omega
  · rw [Bool.eq_false_iff, Ne, key 10 10 (by norm_num) (by norm_num)]
    omega
  · obtain ⟨r, hr, ha⟩ := empty_square_adds (ssd1306_clear sample_device) hw hh 0 0 10 10
      (by decide) (by decide)
    refine ⟨r, hr, ?_⟩
    apply (adds_on_cleared sample_device r _ ha 10 10 (by decide) (by decide) (by decide)).2
    omega

/-- C11 (amended): on a cleared 128x64 buffer `ssd1306_draw_square(0, 0, 10, 10)`
sets exactly the 100 pixels `(px, py)` with `0 <= px <= 9` and `0 <= py <= 9`;
column 10 and row 10 of the box outlined by
`ssd1306_draw_empty_square(0, 0, 10, 10)` stay clear. -/
theorem draw_square_ten_by_ten (p : ssd1306_t) (hw : p.width = 128) (hh : p.height = 64)
    (hsz : p.bufsize = 1024) :
    (∀ px py, px < 128 → py < 64 →
      (pixel_set (ssd1306_draw_square (ssd1306_clear p) 0 0 10 10) px py = true
        ↔ (px ≤ 9 ∧ py ≤ 9)))
    ∧ ((List.range 128).map (fun px => ((List.range 64).filter (fun py =>
          decide (px ≤ 9 ∧ py ≤ 9))).length)).sum = 100 := by
  have hw1 : (ssd1306_clear p).width < 256 := by
    show p.width < 256
    omega
  have hh1 : (ssd1306_clear p).height < 256 := by
    show p.height < 256
    omega
  have hadd := draw_square_adds (ssd1306_clear p) 0 0 10 10 hw1 hh1 (by norm_num) (by norm_num)
  refine ⟨?_, by decide!⟩
  intro px py hpx hpy
  rw [adds_on_cleared p _ _ hadd px py (by omega) (by omega) (by rw [hw, hsz]; omega)]
  omega

/-- Witness for C11 (amended): the pixels `(9, 9)` and `(10, 10)` of the 128x64
sample display. -/
theorem draw_square_ten_by_ten_witness :
    (pixel_set (ssd1306_draw_square (ssd1306_clear sample_device) 0 0 10 10) 9 9 = true
        ↔ (9 ≤ 9 ∧ 9 ≤ 9))
    ∧ (pixel_set (ssd1306_draw_square (ssd1306_clear sample_device) 0 0 10 10) 10 10 = true
        ↔ (10 ≤ 9 ∧ 10 ≤ 9)) :=
  ⟨(draw_square_ten_by_ten sample_device rfl rfl rfl).1 9 9 (by norm_num) (by norm_num),
   (draw_square_ten_by_ten sample_device rfl rfl rfl).1 10 10 (by norm_num) (by norm_num)⟩

/-- C12: for `x + w < width` and `y + h < height`, `ssd1306_draw_empty_square`
on a cleared buffer returns the cleared state with exactly the outline pixels
added, the `(px, py)` with `x <= px <= x + w`, `y <= py <= y + h` and
`px = x` or `px = x + w` or `py = y` or `py = y + h`; among the pixels stored
in the logical buffer those set are exactly the outline, so no interior and no
exterior pixel is set.  (The fields `width` and `height` are `uint8_t`.) -/
theorem draw_empty_square_outline (p : ssd1306_t) (hw : p.width < 256) (hh : p.height < 256)
    (x y w h : Nat) (hx : x + w < p.width) (hy : y + h < p.height) :
    ∃ r, ssd1306_draw_empty_square (ssd1306_clear p) x y w h = some r
      ∧ AddsPixels (ssd1306_clear p) r
          (fun px py => x ≤ px ∧ px ≤ x + w ∧ y ≤ py ∧ py ≤ y + h
            ∧ (px = x ∨ px = x + w ∨ py = y ∨ py = y + h))
      ∧ (∀ px py, px < p.width → py < p.height → px + p.width * (py / 8) < p.bufsize →
          (pixel_set r px py = true ↔
            (x ≤ px ∧ px ≤ x + w ∧ y ≤ py ∧ py ≤ y + h
              ∧ (px = x ∨ px = x + w ∨ py = y ∨ py = y + h)))) := by
  obtain ⟨r, hr, ha⟩ := empty_square_adds (ssd1306_clear p) hw hh x y w h hx hy
  exact ⟨r, hr, ha, fun px py hpx hpy hin => adds_on_cleared p r _ ha px py hpx hpy hin⟩

/-- Witness for C12: the box `(0,0)..(10,10)` on the cleared 128x64 sample
display. -/
theorem draw_empty_square_outline_witness :
    ∃ r, ssd1306_draw_empty_square (ssd1306_clear sample_device) 0 0 10 10 = some r
      ∧ AddsPixels (ssd1306_clear sample_device) r
          (fun px py => 0 ≤ px ∧ px ≤ 0 + 10 ∧ 0 ≤ py ∧ py ≤ 0 + 10
            ∧ (px = 0 ∨ px = 0 + 10 ∨ py = 0 ∨ py = 0 + 10))
      ∧ (∀ px py, px < sample_device.width → py < sample_device.height →
          px + sample_device.width * (py / 8) < sample_device.bufsize →
          (pixel_set r px py = true ↔
            (0 ≤ px ∧ px ≤ 0 + 10 ∧ 0 ≤ py ∧ py ≤ 0 + 10
              ∧ (px = 0 ∨ px = 0 + 10 ∨ py = 0 ∨ py = 0 + 10)))) :=
  draw_empty_square_outline sample_device (by decide) (by decide) 0 0 10 10
    (by decide) (by decide)

/-! ## Bitmap header -/

theorem or_shift8 (a b : Nat) (ha : a < 256) : a ||| (b <<< 8) = a + 256 * b := by
  have h := Nat.mul_add_lt_is_or (i := 8) (b := a) (by norm_num; exact ha) b
  rw [Nat.shiftLeft_eq, Nat.or_comm, Nat.mul_comm b, ← h]
  norm_num
  omega

theorem or_shift16 (a b : Nat) (ha : a < 65536) : a ||| (b <<< 16) = a + 65536 * b := by
  have h := Nat.mul_add_lt_is_or (i := 16) (b := a) (by norm_num; exact ha) b
  rw [Nat.shiftLeft_eq, Nat.or_comm, Nat.mul_comm b, ← h]
  norm_num
  omega

theorem or_shift24 (a b : Nat) (ha : a < 16777216) : a ||| (b <<< 24) = a + 16777216 * b := by
  have h := Nat.mul_add_lt_is_or (i := 24) (b := a) (by norm_num; exact ha) b
  rw [Nat.shiftLeft_eq, Nat.or_comm, Nat.mul_comm b, ← h]
  norm_num
  omega

/-- The two-byte read is the little-endian 16-bit value. -/
theorem bmp_get_val_two (data : Int → Nat) (hb : ∀ i, data i < 256) (o : Int) :
    ssd1306_bmp_get_val data o 2 = data o + 256 * data (o + 1) := by
  have h0 := hb o
  have h1 := hb (o + 1)
  simp only [ssd1306_bmp_get_val]
  rw [or_shift8 _ _ h0]
  apply Nat.mod_eq_of_lt
  norm_num
  omega

/-- The four-byte read is the little-endian 32-bit value. -/
theorem bmp_get_val_four (data : Int → Nat) (hb : ∀ i, data i < 256) (o : Int) :
    ssd1306_bmp_get_val data o 4
      = data o + 256 * data (o + 1) + 65536 * data (o + 2) + 16777216 * data (o + 3) := by
  have h0 := hb o
  have h1 := hb (o + 1)
  have h2 := hb (o + 2)
  have h3 := hb (o + 3)
  simp only [ssd1306_bmp_get_val]
  rw [or_shift8 _ _ h0, or_shift16 _ _ (by omega), or_shift24 _ _ (by omega)]
  apply Nat.mod_eq_of_lt
  norm_num
  omega

/-- C13: `ssd1306_bmp_show_image_with_offset` returns the state it was given,
so the buffer is unchanged byte for byte, when `size < 54`, and when
`size >= 54` and the little-endian 16-bit field at offset 28 is not 1 or the
little-endian 32-bit field at offset 30 is not 0, for all offsets and all
other data.  (The elements of `data` are `uint8_t`.) -/
theorem bmp_rejected_input_is_noop (indeterminate : Nat) (p : ssd1306_t) (data : Int → Nat)
    (size : Int) (x_offset y_offset : Nat) (hb : ∀ i, data i < 256)
    (h : size < 54
      ∨ (54 ≤ size
          ∧ (data 28 + 256 * data 29 ≠ 1
              ∨ data 30 + 256 * data 31 + 65536 * data 32 + 16777216 * data 33 ≠ 0))) :
    ssd1306_bmp_show_image_with_offset indeterminate p data size x_offset y_offset
      = some p := by
  unfold ssd1306_bmp_show_image_with_offset
  rcases h with h | ⟨_, h | h⟩
  · rw [if_pos h]
  · by_cases hs : size < 54
    · rw [if_pos hs]
    · have h2 := bmp_get_val_two data hb 28
      have e : (28 : Int) + 1 = 29 := by norm_num
      rw [e] at h2
      have hne : biBitCount data ≠ 1 := by
        unfold biBitCount
        rw [h2]
        have h0 := hb 28
        have h1 := hb 29
        norm_num
        omega
      rw [if_neg hs, if_pos hne]
  · by_cases hs : size < 54
    · rw [if_pos hs]
    · by_cases hbc : biBitCount data ≠ 1
      · rw [if_neg hs, if_pos hbc]
      · have h4 := bmp_get_val_four data hb 30
        have e1 : (30 : Int) + 1 = 31 := by norm_num
        have e2 : (30 : Int) + 2 = 32 := by norm_num
        have e3 : (30 : Int) + 3 = 33 := by norm_num
        rw [e1, e2, e3] at h4
        have hne : biCompression data ≠ 0 := by
          unfold biCompression
          rw [h4]
          exact h
        rw [if_neg hs, if_neg hbc, if_pos hne]

/-- Witness for C13: an empty input of size 0. -/
theorem bmp_rejected_input_is_noop_witness :
    ssd1306_bmp_show_image_with_offset 0 sample_device (fun _ => 0) 0 0 0
      = some sample_device :=
  bmp_rejected_input_is_noop 0 sample_device (fun _ => 0) 0 0 0 (fun _ => by norm_num)
    (Or.inl (by norm_num))

/-! ## Text -/

theorem draw_char_out_of_range (p : ssd1306_t) (x y scale : Nat) (font : Nat → Nat) (c : Int)
    (h : c < (font 3 : Int) ∨ c > (font 4 : Int)) :
    ssd1306_draw_char_with_font p x y scale font c = p := by
  unfold ssd1306_draw_char_with_font
  rw [if_pos h]

theorem draw_string_loop_out_of_range (y scale : Nat) (font : Nat → Nat) :
    ∀ (s : List Int), (∀ c, c ∈ s → (c < (font 3 : Int) ∨ c > (font 4 : Int))) →
      ∀ (x_n : Nat) (p : ssd1306_t), draw_string_loop y scale font s x_n p = p := by
  intro s
  induction s with
  | nil => intro _ x_n p; rfl
  | cons c s ih =>
    intro hs x_n p
    rw [draw_string_loop, draw_char_out_of_range p x_n y scale font c
      (hs c (List.mem_cons_self _ _))]
    exact ih (fun d hd => hs d (List.mem_cons_of_mem _ hd)) _ p

/-- C17: for a character `c` with `c < font[3]` or `c > font[4]`,
`ssd1306_draw_char_with_font` returns the state it was given, whatever the
position and the scale; hence `ssd1306_draw_string_with_font` on a string
made only of such characters returns the state it was given. -/
theorem draw_char_skips_out_of_range (p : ssd1306_t) (x y scale : Nat) (font : Nat → Nat) :
    (∀ c : Int, (c < (font 3 : Int) ∨ c > (font 4 : Int)) →
      ssd1306_draw_char_with_font p x y scale font c = p)
    ∧ (∀ s : List Int, (∀ c, c ∈ s → (c < (font 3 : Int) ∨ c > (font 4 : Int))) →
      ssd1306_draw_string_with_font p x y scale font s = p) := by
  constructor
  · intro c h
    exact draw_char_out_of_range p x y scale font c h
  · intro s hs
    unfold ssd1306_draw_string_with_font
    exact draw_string_loop_out_of_range y scale font s hs _ p

/-! ## Geometry after initialisation -/

theorem init_common_fields (ops : Opcodes) (proto : Proto) (malloc : Nat → Option Int)
    (p : ssd1306_t) (width height : Nat)
    (hok : (ssd1306_init_common ops proto malloc p width height).1 = true) :
    (ssd1306_init_common ops proto malloc p width height).2.1.width = width % 256
    ∧ (ssd1306_init_common ops proto malloc p width height).2.1.height = height % 256
    ∧ (ssd1306_init_common ops proto malloc p width height).2.1.pages = (height / 8) % 256
    ∧ (ssd1306_init_common ops proto malloc p width height).2.1.bufsize
        = (height / 8) % 256 * (width % 256) := by
  obtain ⟨a, ha⟩ := (init_common_ok_iff ops proto malloc p width height).1 hok
  unfold ssd1306_init_common
  simp [ha]

/-- C18: for `width <= 255` and `height <= 255` a multiple of 8, a successful
`ssd1306_init_common` stores the given width and height, `pages = height / 8`
and `bufsize = pages * width`; in the resulting state every
`ssd1306_draw_pixel(x, y)` with `x < width`, `y < height` uses the byte index
`x + width * (y / 8)`, which is below `bufsize`. -/
theorem init_geometry_in_bounds (ops : Opcodes) (proto : Proto) (malloc : Nat → Option Int)
    (p : ssd1306_t) (width height : Nat) (hw : width ≤ 255) (hh : height ≤ 255)
    (h8 : height % 8 = 0)
    (hok : (ssd1306_init_common ops proto malloc p width height).1 = true) :
    (ssd1306_init_common ops proto malloc p width height).2.1.width = width
    ∧ (ssd1306_init_common ops proto malloc p width height).2.1.height = height
    ∧ (ssd1306_init_common ops proto malloc p width height).2.1.pages = height / 8
    ∧ (ssd1306_init_common ops proto malloc p width height).2.1.bufsize
        = (ssd1306_init_common ops proto malloc p width height).2.1.pages
          * (ssd1306_init_common ops proto malloc p width height).2.1.width
    ∧ (∀ x y, x < width → y < height →
        pixel_index (ssd1306_init_common ops proto malloc p width height).2.1 x y
            = x + width * (y / 8)
        ∧ pixel_index (ssd1306_init_common ops proto malloc p width height).2.1 x y
            < (ssd1306_init_common ops proto malloc p width height).2.1.bufsize) := by
  obtain ⟨e1, e2, e3, e4⟩ := init_common_fields ops proto malloc p width height hok
  have m1 : width % 256 = width := Nat.mod_eq_of_lt (by omega)
  have m2 : height % 256 = height := Nat.mod_eq_of_lt (by omega)
  have m3 : (height / 8) % 256 = height / 8 := Nat.mod_eq_of_lt (by omega)
  rw [m1] at e1 e4
  rw [m2] at e2
  rw [m3] at e3 e4
  refine ⟨e1, e2, e3, by rw [e4, e3, e1], ?_⟩
  intro x y hx hy
  have hidx := pixel_index_eq (ssd1306_init_common ops proto malloc p width height).2.1 x y
    (by rw [e1]; omega) (by rw [e1]; exact hx) (by omega)
  rw [e1] at hidx
  refine ⟨hidx, ?_⟩
  rw [hidx, e4]
  have hy8 : y / 8 + 1 ≤ height / 8 := by omega
  calc x + width * (y / 8) < width + width * (y / 8) := by omega
    _ = (y / 8 + 1) * width := by ring
    _ ≤ height / 8 * width := Nat.mul_le_mul_right _ hy8

/-- Witness for C18: a 128x64 display gets 8 pages and a buffer of 1024 bytes. -/
theorem init_geometry_in_bounds_witness :
    (ssd1306_init_common datasheet_opcodes Proto.I2C (fun _ => some 0) sample_device
        128 64).2.1.pages = 8
    ∧ (ssd1306_init_common datasheet_opcodes Proto.I2C (fun _ => some 0) sample_device
        128 64).2.1.bufsize = 1024 :=
  ⟨(init_geometry_in_bounds datasheet_opcodes Proto.I2C (fun _ => some 0) sample_device
      128 64 (by decide) (by decide) (by decide) rfl).2.2.1,
   rfl⟩

/-! ## Row stride -/

theorem xor_low_two_bits (b : Nat) : b ^^^ (b % 4) = b - b % 4 := by
  have hr : b - b % 4 = 2 ^ 2 * (b / 2 ^ 2) := by
    norm_num
    omega
  rw [hr]
  apply Nat.eq_of_testBit_eq
  intro i
  have h4 : (4 : Nat) = 2 ^ 2 := by norm_num
  rw [Nat.testBit_xor, h4, Nat.testBit_mod_two_pow, Nat.testBit_mul_pow_two,
    ← Nat.shiftRight_eq_div_pow, Nat.testBit_shiftRight]
  by_cases hi : i < 2
  · have h2 : ¬ (i ≥ 2) := by omega
    simp [hi, h2]
  · have h2 : i ≥ 2 := by omega
    have e : 2 + (i - 2) = i := by omega
    simp [hi, h2, e]

/-- The stride computation on a non-negative `int32_t` width, in the words of
the source: `b = w / 8 + (w & 7 ? 1 : 0)`, then `b = (b ^ (b & 3)) + 4` when
`b & 3` is not zero. -/
theorem bmp_bytes_per_line_natCast (w : Nat) (hw : w < 2 ^ 31) :
    bmp_bytes_per_line (w : Int)
      = (if (w / 8 + (if w % 8 ≠ 0 then 1 else 0)) % 4 ≠ 0 then
          ((w / 8 + (if w % 8 ≠ 0 then 1 else 0))
            ^^^ ((w / 8 + (if w % 8 ≠ 0 then 1 else 0)) % 4)) + 4
         else w / 8 + (if w % 8 ≠ 0 then 1 else 0)) := by
  have hb : i32_to_u32 (Int.tdiv (w : Int) 8 + (if (w : Int) % 8 ≠ 0 then 1 else 0))
      = w / 8 + (if w % 8 ≠ 0 then 1 else 0) := by
    have h1 : Int.tdiv (w : Int) 8 = ((w / 8 : Nat) : Int) := by
      rw [Int.tdiv_eq_ediv (Int.ofNat_nonneg w) (by norm_num)]
      norm_cast
    have h2 : ((w : Int) % 8 ≠ 0) ↔ (w % 8 ≠ 0) := by omega
    rw [h1]
    by_cases h : w % 8 ≠ 0
    · rw [if_pos (h2.2 h), if_pos h]
      have := i32_to_u32_natCast (w / 8 + 1) (by norm_num at hw ⊢; omega)
      simpa using this
    · rw [if_neg (fun h' => h (h2.1 h')), if_neg h]
      have := i32_to_u32_natCast (w / 8) (by norm_num at hw ⊢; omega)
      simpa using this
  have h3 : ∀ b : Nat, b &&& 3 = b % 4 := fun b => Nat.and_pow_two_sub_one_eq_mod b 2
  have hB : w / 8 + (if w % 8 ≠ 0 then 1 else 0) ≤ 268435456 := by
    norm_num at hw
    split <;> omega
  unfold bmp_bytes_per_line
  simp only [hb, h3]
  generalize w / 8 + (if w % 8 ≠ 0 then 1 else 0) = B at hB
  by_cases h : B % 4 ≠ 0
  · rw [if_pos h, if_pos h, xor_low_two_bits]
    apply Nat.mod_eq_of_lt
    norm_num
    omega
  · rw [if_neg h, if_neg h]

theorem bmp_stride_eq (w : Nat) (hw : w < 2 ^ 31) :
    bmp_bytes_per_line (w : Int) = 4 * ((w + 31) / 32) := by
  rw [bmp_bytes_per_line_natCast w hw]
  have hB : w / 8 + (if w % 8 ≠ 0 then 1 else 0) = (w + 7) / 8 := by
    split <;> omega
  rw [hB]
  by_cases h : ((w + 7) / 8) % 4 ≠ 0
  · rw [if_pos h, xor_low_two_bits]
    omega
  · rw [if_neg h]
    omega

/-- C19: for a width `0 <= w < 2^31` the stride computed by the importer,
`b = w / 8 + (1 if w mod 8 != 0 else 0)` followed by
`b = (b xor (b mod 4)) + 4` when `b mod 4 != 0`, is `4 * ceil(w / 32)`: it is
`ceil(w / 8)` rounded up to a multiple of 4, a multiple of 4, and lies in
`[ceil(w / 8), ceil(w / 8) + 4)`. -/
theorem bmp_stride_rounds_up (w : Nat) (hw : w < 2 ^ 31) :
    bmp_bytes_per_line (w : Int)
        = (if (w / 8 + (if w % 8 ≠ 0 then 1 else 0)) % 4 ≠ 0 then
            ((w / 8 + (if w % 8 ≠ 0 then 1 else 0))
              ^^^ ((w / 8 + (if w % 8 ≠ 0 then 1 else 0)) % 4)) + 4
           else w / 8 + (if w % 8 ≠ 0 then 1 else 0))
    ∧ bmp_bytes_per_line (w : Int) = 4 * ((w + 31) / 32)
    ∧ bmp_bytes_per_line (w : Int) = 4 * (((w + 7) / 8 + 3) / 4)
    ∧ bmp_bytes_per_line (w : Int) % 4 = 0
    ∧ (w + 7) / 8 ≤ bmp_bytes_per_line (w : Int)
    ∧ bmp_bytes_per_line (w : Int) < (w + 7) / 8 + 4 := by
  have h := bmp_stride_eq w hw
  refine ⟨bmp_bytes_per_line_natCast w hw, h, ?_, ?_, ?_, ?_⟩ <;> rw [h] <;> omega

/-- Witness for C19: a width of 10 pixels gives a stride of 4 bytes. -/
theorem bmp_stride_rounds_up_witness : bmp_bytes_per_line ((10 : Nat) : Int) = 4 * ((10 + 31) / 32) :=
  (bmp_stride_rounds_up 10 (by norm_num)).2.1

/-! ## Bitmap rows -/

theorem foldl_congr_range {α : Type} (f g : α → Nat → α) (m : Nat)
    (hfg : ∀ (t : α) (r : Nat), r < m → f t r = g t r) (s : α) :
    (List.range m).foldl f s = (List.range m).foldl g s := by
  have aux : ∀ (l : List Nat), (∀ r, r ∈ l → r < m) → ∀ s : α, l.foldl f s = l.foldl g s := by
    intro l
    induction l with
    | nil => intro _ s; rfl
    | cons c l ih =>
      intro hl s
      rw [List.foldl_cons, List.foldl_cons, hfg s c (hl c (List.mem_cons_self _ _))]
      exact ih (fun r hr => hl r (List.mem_cons_of_mem _ hr)) _
  exact aux _ (fun r hr => List.mem_range.1 hr) s

theorem foldl_range_succ_front {α : Type} (f : α → Nat → α) (m : Nat) (s : α) :
    (List.range (m + 1)).foldl f s = (List.range m).foldl (fun t r => f t (r + 1)) (f s 0) := by
  rw [List.range_succ_eq_map, List.foldl_cons, List.foldl_map]

/-- The row loop counting down from `m - 1` to `0` (step and border both
`2^32 - 1`, the `uint32_t` value of `-1`) runs `m` times. -/
theorem bmp_row_loop_down {α : Type} (body : α → Nat → Int → α) (bpl : Nat) :
    ∀ (m fuel : Nat) (img : Int) (s : α), m < fuel → m ≤ 2 ^ 31 →
      bmp_row_loop body (2 ^ 32 - 1) (2 ^ 32 - 1) bpl fuel
          (if m = 0 then 2 ^ 32 - 1 else m - 1) img s
        = some ((List.range m).foldl
            (fun t r => body t (m - 1 - r) (img + (r : Int) * (bpl : Int))) s) := by
  intro m
  induction m with
  | zero =>
    intro fuel img s hf _
    obtain ⟨f, rfl⟩ : ∃ f, fuel = f + 1 := ⟨fuel - 1, by omega⟩
    simp [bmp_row_loop]
  | succ m ih =>
    intro fuel img s hf hm
    obtain ⟨f, rfl⟩ : ∃ f, fuel = f + 1 := ⟨fuel - 1, by omega⟩
    have hne : ¬ (m = 2 ^ 32 - 1) := by
      norm_num at hm ⊢
      omega
    have hnext : (m + (2 ^ 32 - 1)) % 2 ^ 32 = (if m = 0 then 2 ^ 32 - 1 else m - 1) := by
      norm_num at hm ⊢
      split <;> omega
    have key : (List.range (m + 1)).foldl
          (fun t r => body t (m + 1 - 1 - r) (img + (r : Int) * (bpl : Int))) s
        = (List.range m).foldl
          (fun t r => body t (m - 1 - r) (img + (bpl : Int) + (r : Int) * (bpl : Int)))
          (body s m img) := by
      rw [foldl_range_succ_front]
      have h0 : body s (m + 1 - 1 - 0) (img + ((0 : Nat) : Int) * (bpl : Int)) = body s m img := by
        simp
      rw [h0]
      apply foldl_congr_range
      intro t r _
      have e1 : m + 1 - 1 - (r + 1) = m - 1 - r := by omega
      have e2 : img + ((r + 1 : Nat) : Int) * (bpl : Int)
          = img + (bpl : Int) + (r : Int) * (bpl : Int) := by
        push_cast
        ring
      rw [e1, e2]
    rw [if_neg (Nat.succ_ne_zero m), Nat.add_sub_cancel, bmp_row_loop, if_neg hne, hnext,
      ih f (img + (bpl : Int)) (body s m img) (by omega) (by omega)]
    simp only [Nat.add_sub_cancel] at key
    exact congrArg some key.symm

/-- The row loop counting up from `y` with step 1 runs until the border. -/
theorem bmp_row_loop_up {α : Type} (body : α → Nat → Int → α) (bpl border : Nat)
    (hB : border < 2 ^ 32) :
    ∀ (d fuel y : Nat) (img : Int) (s : α), y + d = border → d < fuel →
      bmp_row_loop body border 1 bpl fuel y img s
        = some ((List.range d).foldl
            (fun t r => body t (y + r) (img + (r : Int) * (bpl : Int))) s) := by
  intro d
  induction d with
  | zero =>
    intro fuel y img s hy hf
    obtain ⟨f, rfl⟩ : ∃ f, fuel = f + 1 := ⟨fuel - 1, by omega⟩
    have : y = border := by omega
    simp [bmp_row_loop, this]
  | succ d ih =>
    intro fuel y img s hy hf
    obtain ⟨f, rfl⟩ : ∃ f, fuel = f + 1 := ⟨fuel - 1, by omega⟩
    have hne : ¬ (y = border) := by omega
    have hnext : (y + 1) % 2 ^ 32 = y + 1 := Nat.mod_eq_of_lt (by omega)
    have key : (List.range (d + 1)).foldl
          (fun t r => body t (y + r) (img + (r : Int) * (bpl : Int))) s
        = (List.range d).foldl
          (fun t r => body t (y + 1 + r) (img + (bpl : Int) + (r : Int) * (bpl : Int)))
          (body s y img) := by
      rw [foldl_range_succ_front]
      have h0 : body s (y + 0) (img + ((0 : Nat) : Int) * (bpl : Int)) = body s y img := by
        simp
      rw [h0]
      apply foldl_congr_range
      intro t r _
      have e1 : y + (r + 1) = y + 1 + r := by omega
      have e2 : img + ((r + 1 : Nat) : Int) * (bpl : Int)
          = img + (bpl : Int) + (r : Int) * (bpl : Int) := by
        push_cast
        ring
      rw [e1, e2]
    rw [bmp_row_loop, if_neg hne, hnext,
      ih f (y + 1) (img + (bpl : Int)) (body s y img) (by omega) (by omega), key]

/-- Rows of a bottom-up image (height field `h > 0`): `h` rows, stored row
`r` at `bfOffBits + r * stride` with counter `y = h - 1 - r`. -/
theorem bmp_rows_bottom_up {α : Type} (body : Nat → Nat → α → Nat → Int → α)
    (indeterminate : Nat) (data : Int → Nat) (s : α) (h : Nat) (hpos : 0 < h)
    (hH : biHeight data = (h : Int)) :
    bmp_rows body indeterminate data s
      = some ((List.range h).foldl
          (fun t r =>
            body (i32_to_u32 (biWidth data))
              (bmp_color_val data (table_start data) indeterminate) t (h - 1 - r)
              ((bfOffBits data : Int) + (r : Int) * (bmp_bytes_per_line (biWidth data) : Int)))
          s) := by
  have hlt : h < 2 ^ 31 := by
    have : biHeight data < 2 ^ 31 := by
      unfold biHeight u32_to_i32
      split <;> omega
    rw [hH] at this
    exact_mod_cast this
  have hgt : (h : Int) > 0 := by exact_mod_cast hpos
  have hm1 : i32_to_u32 (-1) = 2 ^ 32 - 1 := by decide
  have hy0 : i32_to_u32 ((h : Int) - 1) = h - 1 := by
    have := i32_to_u32_natCast (h - 1) (by omega)
    rw [← this]
    congr 1
    omega
  unfold bmp_rows
  simp only [hH, if_pos hgt, hm1, hy0]
  have hl := bmp_row_loop_down
    (body (i32_to_u32 (biWidth data)) (bmp_color_val data (table_start data) indeterminate))
    (bmp_bytes_per_line (biWidth data)) h (2 ^ 32 + 1) (bfOffBits data : Int) s
    (by omega) (by omega)
  rw [if_neg (by omega)] at hl
  exact hl

/-- Rows of a top-down image (height field `-n`, `n > 0`): the counter runs
from `0` up to the `uint32_t` value `2^32 - n` of the border. -/
theorem bmp_rows_top_down {α : Type} (body : Nat → Nat → α → Nat → Int → α)
    (indeterminate : Nat) (data : Int → Nat) (s : α) (n : Nat) (hpos : 0 < n)
    (hH : biHeight data = -(n : Int)) :
    bmp_rows body indeterminate data s
      = some ((List.range (2 ^ 32 - n)).foldl
          (fun t r =>
            body (i32_to_u32 (biWidth data))
              (bmp_color_val data (table_start data) indeterminate) t r
              ((bfOffBits data : Int) + (r : Int) * (bmp_bytes_per_line (biWidth data) : Int)))
          s) := by
  have hle : n ≤ 2 ^ 31 := by
    have : -(2 ^ 31 : Int) ≤ biHeight data := by
      unfold biHeight u32_to_i32
      split <;> omega
    rw [hH] at this
    omega
  have hng : ¬ (-(n : Int) > 0) := by omega
  have h1 : i32_to_u32 1 = 1 := by decide
  have h0 : i32_to_u32 0 = 0 := by decide
  have hb : i32_to_u32 (-(n : Int)) = 2 ^ 32 - n := by
    unfold i32_to_u32
    omega
  unfold bmp_rows
  simp only [hH, if_neg hng, h1, h0, hb]
  have hl := bmp_row_loop_up
    (body (i32_to_u32 (biWidth data)) (bmp_color_val data (table_start data) indeterminate))
    (bmp_bytes_per_line (biWidth data)) (2 ^ 32 - n)
    (by omega) (2 ^ 32 - n) (2 ^ 32 + 1) 0 (bfOffBits data : Int) s
    (by omega) (by omega)
  simp only [Nat.zero_add] at hl
  exact hl

/-! ## Bitmap pixels -/

theorem adds_ite (c : Prop) [Decidable c] {q r : ssd1306_t} {S : Nat → Nat → Prop}
    (h : AddsPixels q r S) :
    AddsPixels q (if c then r else q) (fun px py => c ∧ S px py) := by
  by_cases hc : c
  · rw [if_pos hc]
    exact adds_congr h (fun px py _ _ => ⟨fun hs => ⟨hc, hs⟩, fun hs => hs.2⟩)
  · rw [if_neg hc]
    exact adds_none q _ (fun px py _ _ hs => hc hs.1)

theorem bmp_bit_eq (b x : Nat) :
    ((b >>> (7 - (x &&& 7))) &&& 1) = (b / 2 ^ (7 - x % 8)) % 2 := by
  have h : x &&& 7 = x % 8 := Nat.and_pow_two_sub_one_eq_mod x 3
  rw [h, Nat.shiftRight_eq_div_pow, Nat.and_one_is_mod]

/-- One stored row adds the pixels whose bit equals `color_val`. -/
theorem bmp_draw_row_adds (data : Int → Nat) (W K xo yo : Nat) (q : ssd1306_t) (y : Nat)
    (img : Int) (hw : q.width < 256) (hh : q.height < 256) :
    AddsPixels q (bmp_draw_row data W K xo yo q y img)
      (fun px py => ∃ x, x < W ∧ (data (img + ((x / 8 : Nat) : Int)) / 2 ^ (7 - x % 8)) % 2 = K
        ∧ px = (xo + x) % 2 ^ 32 ∧ py = (yo + y) % 2 ^ 32) := by
  unfold bmp_draw_row
  refine adds_congr (foldl_adds
    (fun q1 x =>
      if ((data (img + ((x >>> 3 : Nat) : Int)) >>> (7 - (x &&& 7))) &&& 1) = K then
        ssd1306_draw_pixel q1 ((xo + x) % 2 ^ 32) ((yo + y) % 2 ^ 32)
      else q1)
    (fun x px py =>
      ((data (img + ((x >>> 3 : Nat) : Int)) >>> (7 - (x &&& 7))) &&& 1) = K
        ∧ (px = (xo + x) % 2 ^ 32 ∧ py = (yo + y) % 2 ^ 32))
    (fun q1 x hq1 hq2 => adds_ite _ (draw_pixel_adds q1 _ _ hq1 hq2))
    (List.range W) q hw hh) ?_
  intro px py _ _
  have h3 : ∀ x : Nat, x >>> 3 = x / 8 := fun x => by
    rw [Nat.shiftRight_eq_div_pow]
  simp only [List.mem_range, bmp_bit_eq, h3]

/-- A sequence of stored rows, row `r` at `imgf r` drawn with counter `yf r`. -/
theorem bmp_image_adds (data : Int → Nat) (W K xo yo : Nat) (yf : Nat → Nat)
    (imgf : Nat → Int) (m : Nat) (p : ssd1306_t) (hw : p.width < 256) (hh : p.height < 256) :
    AddsPixels p
      ((List.range m).foldl (fun t r => bmp_draw_row data W K xo yo t (yf r) (imgf r)) p)
      (fun px py => ∃ r, r < m ∧ ∃ x, x < W
        ∧ (data (imgf r + ((x / 8 : Nat) : Int)) / 2 ^ (7 - x % 8)) % 2 = K
        ∧ px = (xo + x) % 2 ^ 32 ∧ py = (yo + yf r) % 2 ^ 32) := by
  refine adds_congr (foldl_adds
    (fun t r => bmp_draw_row data W K xo yo t (yf r) (imgf r))
    (fun r px py => ∃ x, x < W
        ∧ (data (imgf r + ((x / 8 : Nat) : Int)) / 2 ^ (7 - x % 8)) % 2 = K
        ∧ px = (xo + x) % 2 ^ 32 ∧ py = (yo + yf r) % 2 ^ 32)
    (fun t r ht1 ht2 => bmp_draw_row_adds data W K xo yo t (yf r) (imgf r) ht1 ht2)
    (List.range m) p hw hh) ?_
  intro px py _ _
  simp only [List.mem_range]

theorem bmp_show_accepted (indeterminate : Nat) (p : ssd1306_t) (data : Int → Nat)
    (size : Int) (xo yo : Nat) (hs : 54 ≤ size) (hbits : biBitCount data = 1)
    (hcomp : biCompression data = 0) :
    ssd1306_bmp_show_image_with_offset indeterminate p data size xo yo
      = bmp_rows (fun width color_val q y img_data =>
          bmp_draw_row data width color_val xo yo q y img_data) indeterminate data p := by
  unfold ssd1306_bmp_show_image_with_offset
  rw [if_neg (by omega), if_neg (by simp [hbits]), if_neg (by simp [hcomp])]

/-- An accepted bottom-up image of height `h > 0`: the pixels added, with the
coordinates as the `uint32_t` sums the code forms. -/
theorem bmp_bottom_up_adds (indeterminate : Nat) (p : ssd1306_t) (data : Int → Nat)
    (size : Int) (xo yo : Nat) (hw : p.width < 256) (hh : p.height < 256)
    (hs : 54 ≤ size) (hbits : biBitCount data = 1) (hcomp : biCompression data = 0)
    (h : Nat) (hpos : 0 < h) (hH : biHeight data = (h : Int)) :
    ∃ r, ssd1306_bmp_show_image_with_offset indeterminate p data size xo yo = some r
      ∧ AddsPixels p r (fun px py => ∃ row, row < h ∧ ∃ x, x < i32_to_u32 (biWidth data)
        ∧ (data ((bfOffBits data : Int) + (row : Int) * (bmp_bytes_per_line (biWidth data) : Int)
              + ((x / 8 : Nat) : Int)) / 2 ^ (7 - x % 8)) % 2
            = bmp_color_val data (table_start data) indeterminate
        ∧ px = (xo + x) % 2 ^ 32 ∧ py = (yo + (h - 1 - row)) % 2 ^ 32) := by
  rw [bmp_show_accepted indeterminate p data size xo yo hs hbits hcomp,
    bmp_rows_bottom_up _ indeterminate data p h hpos hH]
  exact ⟨_, rfl, bmp_image_adds data _ _ xo yo (fun r => h - 1 - r)
    (fun r => (bfOffBits data : Int) + (r : Int) * (bmp_bytes_per_line (biWidth data) : Int))
    h p hw hh⟩

/-- An accepted top-down image with height field `-n`, `n > 0`: the rows
`0 .. 2^32 - n - 1` are processed. -/
theorem bmp_top_down_adds (indeterminate : Nat) (p : ssd1306_t) (data : Int → Nat)
    (size : Int) (xo yo : Nat) (hw : p.width < 256) (hh : p.height < 256)
    (hs : 54 ≤ size) (hbits : biBitCount data = 1) (hcomp : biCompression data = 0)
    (n : Nat) (hpos : 0 < n) (hH : biHeight data = -(n : Int)) :
    ∃ r, ssd1306_bmp_show_image_with_offset indeterminate p data size xo yo = some r
      ∧ AddsPixels p r (fun px py => ∃ row, row < 2 ^ 32 - n ∧ ∃ x, x < i32_to_u32 (biWidth data)
        ∧ (data ((bfOffBits data : Int) + (row : Int) * (bmp_bytes_per_line (biWidth data) : Int)
              + ((x / 8 : Nat) : Int)) / 2 ^ (7 - x % 8)) % 2
            = bmp_color_val data (table_start data) indeterminate
        ∧ px = (xo + x) % 2 ^ 32 ∧ py = (yo + row) % 2 ^ 32) := by
  rw [bmp_show_accepted indeterminate p data size xo yo hs hbits hcomp,
    bmp_rows_top_down _ indeterminate data p n hpos hH]
  exact ⟨_, rfl, bmp_image_adds data _ _ xo yo (fun r => r)
    (fun r => (bfOffBits data : Int) + (r : Int) * (bmp_bytes_per_line (biWidth data) : Int))
    (2 ^ 32 - n) p hw hh⟩

/-- The colour-table scan returns the first index whose entry is zero. -/
theorem bmp_color_val_first (data : Int → Nat) (t : Int) (indeterminate k : Nat) (hk : k < 2)
    (hz : bmp_table_entry data t k = 0) (hfirst : ∀ i, i < k → bmp_table_entry data t i ≠ 0) :
    bmp_color_val data t indeterminate = k := by
  unfold bmp_color_val
  rcases Nat.lt_or_ge k 1 with h0 | h1
  · have e : k = 0 := by omega
    subst e
    simp [List.find?, hz]
  · have e : k = 1 := by omega
    subst e
    have hn := hfirst 0 (by norm_num)
    simp [List.find?, hz, hn]

theorem sample_bmp_fields :
    biBitCount (bytes_at sample_bmp) = 1 ∧ biCompression (bytes_at sample_bmp) = 0
    ∧ biWidth (bytes_at sample_bmp) = 2 ∧ biHeight (bytes_at sample_bmp) = 1
    ∧ bfOffBits (bytes_at sample_bmp) = 62 ∧ table_start (bytes_at sample_bmp) = 54
    ∧ bmp_table_entry (bytes_at sample_bmp) 54 0 = 0 := by
  decide

/-- C14 (as stated, refuted): the 2x1 bottom-up bitmap `sample_bmp` is well
formed, its colour index 0 is black and only its right pixel (column 1) has
that index.  Imported at `x_offset = 2^32 - 1`, `y_offset = 0` into the clear
128x64 sample display, the code sets pixel `(0, 0)`, because the `uint32_t`
sum `x_offset + 1` wraps to 0, whereas no column `x < 2` gives
`x_offset + x = 0`. -/
theorem bmp_offset_wraps_into_display :
    (biBitCount (bytes_at sample_bmp) = 1 ∧ biCompression (bytes_at sample_bmp) = 0
      ∧ biWidth (bytes_at sample_bmp) = 2 ∧ biHeight (bytes_at sample_bmp) = 1
      ∧ bmp_table_entry (bytes_at sample_bmp) (table_start (bytes_at sample_bmp)) 0 = 0)
    ∧ pixel_set sample_device 0 0 = false
    ∧ (∃ r, ssd1306_bmp_show_image_with_offset 0 sample_device (bytes_at sample_bmp) 66
          (2 ^ 32 - 1) 0 = some r
        ∧ pixel_set r 0 0 = true)
    ∧ ¬ (∃ row x : Nat, row < 1 ∧ x < 2 ∧ 0 = (2 ^ 32 - 1) + x ∧ 0 = 0 + (1 - 1 - row)) := by
  obtain ⟨f1, f2, f3, f4, f5, f6, f7⟩ := sample_bmp_fields
  refine ⟨⟨f1, f2, f3, f4, by rw [f6]; exact f7⟩, by decide, ?_, ?_⟩
  · obtain ⟨r, hr, ha⟩ := bmp_bottom_up_adds 0 sample_device (bytes_at sample_bmp) 66
      (2 ^ 32 - 1) 0 (by decide) (by decide) (by norm_num) f1 f2 1 (by norm_num)
      (by rw [f4]; norm_num)
    refine ⟨r, hr, ?_⟩
    apply (adds_pixel_view ha 0 0 (by decide) (by decide)).2
    refine Or.inr ⟨0, by norm_num, 1, ?_, ?_, ?_, ?_⟩
    · rw [f3]; decide
    · rw [f5, f6, f3]; decide
    · norm_num
    · norm_num
  · rintro ⟨row, x, _, _, h, _⟩
    omega

/-- C14 (amended): for an accepted bitmap with height field `h > 0`, width
field `w >= 0` and first black colour index `k`, imported at offsets with
`x_offset + w <= 2^32` and `y_offset + h <= 2^32`, the result is the given
state with exactly the display pixels `(x_offset + x, y_offset + h - 1 - r)`
added for which `r < h`, `x < w` and bit `7 - x mod 8` of
`data[bfOffBits + r * stride + x / 8]` equals `k`, `stride = 4 * ceil(w / 32)`.
(The fields `width` and `height` are `uint8_t`.) -/
theorem bmp_bottom_up_image (indeterminate : Nat) (p : ssd1306_t) (data : Int → Nat)
    (size : Int) (xo yo : Nat) (hw : p.width < 256) (hh : p.height < 256)
    (hs : 54 ≤ size) (hbits : biBitCount data = 1) (hcomp : biCompression data = 0)
    (w h k : Nat) (hW : biWidth data = (w : Int)) (hpos : 0 < h)
    (hH : biHeight data = (h : Int)) (hk : k < 2)
    (hz : bmp_table_entry data (table_start data) k = 0)
    (hfirst : ∀ i, i < k → bmp_table_entry data (table_start data) i ≠ 0)
    (hx : xo + w ≤ 2 ^ 32) (hy : yo + h ≤ 2 ^ 32) :
    ∃ r, ssd1306_bmp_show_image_with_offset indeterminate p data size xo yo = some r
      ∧ AddsPixels p r (fun px py => ∃ row x, row < h ∧ x < w
          ∧ px = xo + x ∧ py = yo + (h - 1 - row)
          ∧ (data ((bfOffBits data : Int) + (row : Int) * ((4 * ((w + 31) / 32) : Nat) : Int)
                + ((x / 8 : Nat) : Int)) / 2 ^ (7 - x % 8)) % 2 = k) := by
  have hwlt : w < 2 ^ 31 := by
    have : biWidth data < 2 ^ 31 := by
      unfold biWidth u32_to_i32
      split <;> omega
    rw [hW] at this
    exact_mod_cast this
  obtain ⟨r, hr, ha⟩ := bmp_bottom_up_adds indeterminate p data size xo yo hw hh hs hbits
    hcomp h hpos hH
  refine ⟨r, hr, adds_congr ha ?_⟩
  intro px py _ _
  rw [hW, i32_to_u32_natCast w (by omega), bmp_stride_eq w hwlt,
    bmp_color_val_first data (table_start data) indeterminate k hk hz hfirst]
  constructor
  · rintro ⟨row, hrow, x, hxw, hbit, h1, h2⟩
    refine ⟨row, x, hrow, hxw, ?_, ?_, hbit⟩
    · rw [h1]; exact Nat.mod_eq_of_lt (by omega)
    · rw [h2]; exact Nat.mod_eq_of_lt (by omega)
  · rintro ⟨row, x, hrow, hxw, h1, h2, hbit⟩
    refine ⟨row, hrow, x, hxw, hbit, ?_, ?_⟩
    · rw [h1]; exact (Nat.mod_eq_of_lt (by omega)).symm
    · rw [h2]; exact (Nat.mod_eq_of_lt (by omega)).symm

/-- Witness for C14 (amended): `sample_bmp` imported at the origin of the
128x64 sample display. -/
theorem bmp_bottom_up_image_witness :
    ∃ r, ssd1306_bmp_show_image_with_offset 0 sample_device (bytes_at sample_bmp) 66 0 0 = some r
      ∧ AddsPixels sample_device r (fun px py => ∃ row x, row < 1 ∧ x < 2
          ∧ px = 0 + x ∧ py = 0 + (1 - 1 - row)
          ∧ (bytes_at sample_bmp ((bfOffBits (bytes_at sample_bmp) : Int)
                + (row : Int) * ((4 * ((2 + 31) / 32) : Nat) : Int)
                + ((x / 8 : Nat) : Int)) / 2 ^ (7 - x % 8)) % 2 = 0) :=
  bmp_bottom_up_image 0 sample_device (bytes_at sample_bmp) 66 0 0 (by decide) (by decide)
    (by norm_num) sample_bmp_fields.1 sample_bmp_fields.2.1 2 1 0
    (by rw [sample_bmp_fields.2.2.1]; norm_num) (by norm_num)
    (by rw [sample_bmp_fields.2.2.2.1]; norm_num) (by norm_num)
    (by rw [sample_bmp_fields.2.2.2.2.2.1]; exact sample_bmp_fields.2.2.2.2.2.2)
    (fun i hi => absurd hi (Nat.not_lt_zero i)) (by norm_num) (by norm_num)

/-! ## Top-down bitmaps -/

theorem foldl_append_singleton {β : Type} (g : Nat → β) :
    ∀ (l : List Nat) (init : List β),
      l.foldl (fun t r => t ++ [g r]) init = init ++ l.map g := by
  intro l
  induction l with
  | nil => intro init; simp
  | cons c l ih =>
    intro init
    rw [List.foldl_cons, ih]
    simp

/-- The rows visited for a height field `-n`, `n > 0`: the `2^32 - n` counter
values `0, 1, ...`, row `r` read at `bfOffBits + r * stride`. -/
theorem bmp_rows_visited_top_down (indeterminate : Nat) (data : Int → Nat) (n : Nat)
    (hpos : 0 < n) (hH : biHeight data = -(n : Int)) :
    bmp_rows_visited indeterminate data
      = some ((List.range (2 ^ 32 - n)).map (fun (r : Nat) =>
          (r, (bfOffBits data : Int) + (r : Int) * (bmp_bytes_per_line (biWidth data) : Int)))) := by
  unfold bmp_rows_visited
  rw [bmp_rows_top_down _ indeterminate data [] n hpos hH,
    foldl_append_singleton (fun (r : Nat) =>
      (r, (bfOffBits data : Int) + (r : Int) * (bmp_bytes_per_line (biWidth data) : Int)))]
  simp

theorem sample_bmp_top_down_fields :
    biBitCount (bytes_at sample_bmp_top_down) = 1
    ∧ biCompression (bytes_at sample_bmp_top_down) = 0
    ∧ biWidth (bytes_at sample_bmp_top_down) = 2
    ∧ biHeight (bytes_at sample_bmp_top_down) = -1
    ∧ bfOffBits (bytes_at sample_bmp_top_down) = 62
    ∧ table_start (bytes_at sample_bmp_top_down) = 54
    ∧ sample_bmp_top_down.length = 66 := by
  decide

/-- C15 (code defect): evaluation on `sample_bmp_top_down`, a 66-byte accepted
bitmap of width 2 with height field `-1`, one stored row at offset 62.  The
loop border is the `uint32_t` value of the height field, `2^32 - 1`, so
the import visits `2^32 - 1` rows instead of one; the second row is read at
offset 66, past the stored row and past the end of the file, and is drawn:
pixel `(0, 1)` of the clear 128x64 sample display is set. -/
theorem bmp_top_down_row_count :
    (biBitCount (bytes_at sample_bmp_top_down) = 1
      ∧ biCompression (bytes_at sample_bmp_top_down) = 0
      ∧ biHeight (bytes_at sample_bmp_top_down) = -1
      ∧ sample_bmp_top_down.length = 66)
    ∧ (∃ l, bmp_rows_visited 0 (bytes_at sample_bmp_top_down) = some l
        ∧ l.length = 2 ^ 32 - 1 ∧ l[0]? = some (0, 62) ∧ l[1]? = some (1, 66))
    ∧ pixel_set sample_device 0 1 = false
    ∧ (∃ r, ssd1306_bmp_show_image_with_offset 0 sample_device (bytes_at sample_bmp_top_down)
          66 0 0 = some r
        ∧ pixel_set r 0 1 = true) := by
  obtain ⟨f1, f2, f3, f4, f5, f6, f7⟩ := sample_bmp_top_down_fields
  have hH : biHeight (bytes_at sample_bmp_top_down) = -((1 : Nat) : Int) := by
    rw [f4]
    norm_num
  have hbpl : bmp_bytes_per_line (biWidth (bytes_at sample_bmp_top_down)) = 4 := by
    rw [f3]
    decide
  refine ⟨⟨f1, f2, f4, f7⟩, ?_, by decide, ?_⟩
  · refine ⟨_, bmp_rows_visited_top_down 0 (bytes_at sample_bmp_top_down) 1 (by norm_num) hH,
      ?_, ?_, ?_⟩
    · simp
    · rw [List.getElem?_map, List.getElem?_range (by norm_num), f5, hbpl]
      simp
    · rw [List.getElem?_map, List.getElem?_range (by norm_num), f5, hbpl]
      simp
  · obtain ⟨r, hr, ha⟩ := bmp_top_down_adds 0 sample_device (bytes_at sample_bmp_top_down) 66
      0 0 (by decide) (by decide) (by norm_num) f1 f2 1 (by norm_num) hH
    refine ⟨r, hr, ?_⟩
    apply (adds_pixel_view ha 0 1 (by decide) (by decide)).2
    refine Or.inr ⟨1, by norm_num, 0, ?_, ?_, ?_, ?_⟩
    · rw [f3]; decide
    · rw [f5, f6, hbpl]; decide
    · norm_num
    · norm_num

/-! ## Reads of the import -/

theorem bmp_get_val_congr (data data2 : Int → Nat) (o : Int) (n : Nat)
    (h : ∀ i, o ≤ i → i < o + 4 → data2 i = data i) :
    ssd1306_bmp_get_val data2 o n = ssd1306_bmp_get_val data o n := by
  have h0 := h o (le_refl _) (by omega)
  have h1 := h (o + 1) (by omega) (by omega)
  have h2 := h (o + 2) (by omega) (by omega)
  have h3 := h (o + 3) (by omega) (by omega)
  unfold ssd1306_bmp_get_val
  split <;> simp only [h0, h1, h2, h3]

/-- The header fields depend only on the bytes `10 .. 33`. -/
theorem bmp_header_congr (data data2 : Int → Nat)
    (h : ∀ i, 10 ≤ i → i < 34 → data2 i = data i) :
    bfOffBits data2 = bfOffBits data ∧ biSize data2 = biSize data
    ∧ biWidth data2 = biWidth data ∧ biHeight data2 = biHeight data
    ∧ biBitCount data2 = biBitCount data ∧ biCompression data2 = biCompression data
    ∧ table_start data2 = table_start data := by
  have e10 := bmp_get_val_congr data data2 10 4 (fun i h1 h2 => h i (by omega) (by omega))
  have e14 := bmp_get_val_congr data data2 14 4 (fun i h1 h2 => h i (by omega) (by omega))
  have e18 := bmp_get_val_congr data data2 18 4 (fun i h1 h2 => h i (by omega) (by omega))
  have e22 := bmp_get_val_congr data data2 22 4 (fun i h1 h2 => h i (by omega) (by omega))
  have e28 := bmp_get_val_congr data data2 28 2 (fun i h1 h2 => h i (by omega) (by omega))
  have e30 := bmp_get_val_congr data data2 30 4 (fun i h1 h2 => h i (by omega) (by omega))
  simp only [bfOffBits, biSize, biWidth, biHeight, biBitCount, biCompression, table_start,
    e10, e14, e18, e22, e28, e30, and_self]

theorem bmp_color_val_congr (data data2 : Int → Nat) (t : Int) (indeterminate : Nat)
    (h : ∀ i, t ≤ i → i < t + 8 → data2 i = data i) :
    bmp_color_val data2 t indeterminate = bmp_color_val data t indeterminate := by
  have e : ∀ k : Nat, k < 2 → bmp_table_entry data2 t k = bmp_table_entry data t k := by
    intro k hk
    unfold bmp_table_entry
    rw [h (t + (k : Int) * 4) (by omega) (by omega),
      h (t + (k : Int) * 4 + 1) (by omega) (by omega),
      h (t + (k : Int) * 4 + 2) (by omega) (by omega)]
  unfold bmp_color_val
  simp only [List.find?, e 0 (by norm_num), e 1 (by norm_num)]

theorem bmp_draw_row_congr (data data2 : Int → Nat) (W K xo yo : Nat) (q : ssd1306_t)
    (y : Nat) (img : Int)
    (h : ∀ x : Nat, x < W → data2 (img + ((x >>> 3 : Nat) : Int)) = data (img + ((x >>> 3 : Nat) : Int))) :
    bmp_draw_row data2 W K xo yo q y img = bmp_draw_row data W K xo yo q y img := by
  unfold bmp_draw_row
  apply foldl_congr_range
  intro t x hx
  rw [h x hx]

theorem bytes_at_take (l : List Nat) (m : Nat) (i : Int) (h : i < (m : Int)) :
    bytes_at (l.take m) i = bytes_at l i := by
  unfold bytes_at
  by_cases h0 : 0 ≤ i
  · rw [if_pos h0, if_pos h0]
    have hlt : i.toNat < m := by omega
    simp only [List.getD_eq_getElem?_getD, List.getElem?_take, if_pos hlt]
  · rw [if_neg h0, if_neg h0]

/-- C20 (as stated, refuted): the first 54 bytes of `sample_bmp`, supplied with
`size = 54`, pass the size, bit-depth and compression checks.  The array
holding only these 54 bytes and the array holding all of `sample_bmp` agree at
every index below `size`, yet the import leaves pixel `(0, 0)` of the sample
display set for the first and clear for the second: the colour table at
`14 + biSize = 54` and the pixel row at `bfOffBits = 62` are read at indices
that are not below `size`. -/
theorem bmp_reads_beyond_size :
    (∀ i : Int, i < 54 → bytes_at (sample_bmp.take 54) i = bytes_at sample_bmp i)
    ∧ biBitCount (bytes_at (sample_bmp.take 54)) = 1
    ∧ biCompression (bytes_at (sample_bmp.take 54)) = 0
    ∧ table_start (bytes_at (sample_bmp.take 54)) = 54
    ∧ bfOffBits (bytes_at (sample_bmp.take 54)) = 62
    ∧ (∃ r, ssd1306_bmp_show_image_with_offset 0 sample_device
          (bytes_at (sample_bmp.take 54)) 54 0 0 = some r ∧ pixel_set r 0 0 = true)
    ∧ (∃ r, ssd1306_bmp_show_image_with_offset 0 sample_device
          (bytes_at sample_bmp) 54 0 0 = some r ∧ pixel_set r 0 0 = false)
    ∧ ssd1306_bmp_show_image_with_offset 0 sample_device (bytes_at (sample_bmp.take 54)) 54 0 0
        ≠ ssd1306_bmp_show_image_with_offset 0 sample_device (bytes_at sample_bmp) 54 0 0 := by
  obtain ⟨f1, f2, f3, f4, f5, f6, f7⟩ := sample_bmp_fields
  have g : biBitCount (bytes_at (sample_bmp.take 54)) = 1
      ∧ biCompression (bytes_at (sample_bmp.take 54)) = 0
      ∧ biWidth (bytes_at (sample_bmp.take 54)) = 2
      ∧ biHeight (bytes_at (sample_bmp.take 54)) = 1
      ∧ bfOffBits (bytes_at (sample_bmp.take 54)) = 62
      ∧ table_start (bytes_at (sample_bmp.take 54)) = 54 := by
    decide
  obtain ⟨g1, g2, g3, g4, g5, g6⟩ := g
  have a1 : ∃ r, ssd1306_bmp_show_image_with_offset 0 sample_device
      (bytes_at (sample_bmp.take 54)) 54 0 0 = some r ∧ pixel_set r 0 0 = true := by
    obtain ⟨r, hr, ha⟩ := bmp_bottom_up_adds 0 sample_device (bytes_at (sample_bmp.take 54)) 54
      0 0 (by decide) (by decide) (by norm_num) g1 g2 1 (by norm_num) (by rw [g4]; norm_num)
    refine ⟨r, hr, ?_⟩
    apply (adds_pixel_view ha 0 0 (by decide) (by decide)).2
    refine Or.inr ⟨0, by norm_num, 0, ?_, ?_, ?_, ?_⟩
    · rw [g3]; decide
    · rw [g5, g6, g3]; decide
    · norm_num
    · norm_num
  have a2 : ∃ r, ssd1306_bmp_show_image_with_offset 0 sample_device
      (bytes_at sample_bmp) 54 0 0 = some r ∧ pixel_set r 0 0 = false := by
    obtain ⟨r, hr, ha⟩ := bmp_bottom_up_adds 0 sample_device (bytes_at sample_bmp) 54
      0 0 (by decide) (by decide) (by norm_num) f1 f2 1 (by norm_num) (by rw [f4]; norm_num)
    refine ⟨r, hr, ?_⟩
    rw [Bool.eq_false_iff, Ne, adds_pixel_view ha 0 0 (by decide) (by decide)]
    rintro (h | ⟨row, hrow, x, hx, hbit, h1, _⟩)
    · exact absurd h (by decide)
    · rw [f3] at hx
      have hx2 : x < 2 := by
        have : i32_to_u32 2 = 2 := by decide
        omega
      have hx0 : x = 0 := by
        rw [Nat.zero_add, Nat.mod_eq_of_lt (by omega)] at h1
        exact h1.symm
      have hr0 : row = 0 := by omega
      subst hx0
      subst hr0
      rw [f5, f6, f3] at hbit
      exact absurd hbit (by decide)
  refine ⟨fun i hi => bytes_at_take sample_bmp 54 i (by exact_mod_cast hi), g1, g2, g6, g5,
    a1, a2, ?_⟩
  intro heq
  obtain ⟨r1, hr1, s1⟩ := a1
  obtain ⟨r2, hr2, s2⟩ := a2
  rw [heq, hr2] at hr1
  rw [← Option.some.inj hr1, s2] at s1
  exact Bool.noConfusion s1

/-- C20 (amended): for an accepted input with `size >= 54`, height field
`h > 0` and width field `w`, whose colour table and pixel rows lie inside the
data, `0 <= 14 + biSize`, `14 + biSize + 8 <= size` and
`bfOffBits + h * stride <= size` with `stride = 4 * ceil(w / 32)`, every byte
the import reads lies at an index below `size`: a second array that agrees
with `data` at all indices `0 <= i < size` gives the same result. -/
theorem bmp_reads_below_size (indeterminate : Nat) (p : ssd1306_t) (data : Int → Nat)
    (size : Int) (xo yo : Nat) (hs : 54 ≤ size) (hbits : biBitCount data = 1)
    (hcomp : biCompression data = 0) (w h : Nat) (hW : biWidth data = (w : Int))
    (hpos : 0 < h) (hH : biHeight data = (h : Int))
    (ht0 : 0 ≤ table_start data) (ht1 : table_start data + 8 ≤ size)
    (hrows : (bfOffBits data : Int) + (h : Int) * ((4 * ((w + 31) / 32) : Nat) : Int) ≤ size)
    (data2 : Int → Nat) (hag : ∀ i, 0 ≤ i → i < size → data2 i = data i) :
    ssd1306_bmp_show_image_with_offset indeterminate p data2 size xo yo
      = ssd1306_bmp_show_image_with_offset indeterminate p data size xo yo := by
  have hwlt : w < 2 ^ 31 := by
    have : biWidth data < 2 ^ 31 := by
      unfold biWidth u32_to_i32
      split <;> omega
    rw [hW] at this
    exact_mod_cast this
  obtain ⟨c1, _, c3, c4, c5, c6, c7⟩ := bmp_header_congr data data2
    (fun i h1 h2 => hag i (by omega) (by omega))
  have hcol : bmp_color_val data2 (table_start data) indeterminate
      = bmp_color_val data (table_start data) indeterminate :=
    bmp_color_val_congr data data2 (table_start data) indeterminate
      (fun i h1 h2 => hag i (by omega) (by omega))
  rw [bmp_show_accepted indeterminate p data2 size xo yo hs (by rw [c5]; exact hbits)
      (by rw [c6]; exact hcomp),
    bmp_show_accepted indeterminate p data size xo yo hs hbits hcomp,
    bmp_rows_bottom_up _ indeterminate data2 p h hpos (by rw [c4]; exact hH),
    bmp_rows_bottom_up _ indeterminate data p h hpos hH, c1, c3, c7, hcol]
  refine congrArg some ?_
  apply foldl_congr_range
  intro t r hr
  apply bmp_draw_row_congr
  intro x hx
  rw [hW, i32_to_u32_natCast w (by omega)] at hx
  have h3 : x >>> 3 = x / 8 := by rw [Nat.shiftRight_eq_div_pow]
  rw [h3, hW, bmp_stride_eq w hwlt]
  have hstride : x / 8 < 4 * ((w + 31) / 32) := by omega
  have hmul : ((r : Int) + 1) * ((4 * ((w + 31) / 32) : Nat) : Int)
      ≤ (h : Int) * ((4 * ((w + 31) / 32) : Nat) : Int) :=
    mul_le_mul_of_nonneg_right (by exact_mod_cast hr) (Int.ofNat_nonneg _)
  have hb0 : (0 : Int) ≤ (bfOffBits data : Int) := Int.ofNat_nonneg _
  have hr0 : (0 : Int) ≤ (r : Int) * ((4 * ((w + 31) / 32) : Nat) : Int) :=
    mul_nonneg (Int.ofNat_nonneg _) (Int.ofNat_nonneg _)
  have hx0 : (0 : Int) ≤ ((x / 8 : Nat) : Int) := Int.ofNat_nonneg _
  have hxs : ((x / 8 : Nat) : Int) < ((4 * ((w + 31) / 32) : Nat) : Int) := by
    exact_mod_cast hstride
  apply hag
  · linarith
  · have : ((r : Int) + 1) * ((4 * ((w + 31) / 32) : Nat) : Int)
        = (r : Int) * ((4 * ((w + 31) / 32) : Nat) : Int) + ((4 * ((w + 31) / 32) : Nat) : Int) := by
      ring
    linarith

/-- Witness for C20 (amended): `sample_bmp` supplied whole, `size = 66`; a byte
`255` placed right after it, at index 66, does not change the result. -/
theorem bmp_reads_below_size_witness :
    ssd1306_bmp_show_image_with_offset 0 sample_device (bytes_at (sample_bmp ++ [255])) 66 0 0
      = ssd1306_bmp_show_image_with_offset 0 sample_device (bytes_at sample_bmp) 66 0 0 :=
  bmp_reads_below_size 0 sample_device (bytes_at sample_bmp) 66 0 0 (by norm_num)
    sample_bmp_fields.1 sample_bmp_fields.2.1 2 1
    (by rw [sample_bmp_fields.2.2.1]; norm_num) (by norm_num)
    (by rw [sample_bmp_fields.2.2.2.1]; norm_num)
    (by rw [sample_bmp_fields.2.2.2.2.2.1]; norm_num)
    (by rw [sample_bmp_fields.2.2.2.2.2.1]; norm_num)
    (by rw [sample_bmp_fields.2.2.2.2.1]; norm_num) (bytes_at (sample_bmp ++ [255]))
    (fun i _ h1 => by
      have e : (sample_bmp ++ [255]).take 66 = sample_bmp := by decide
      rw [← bytes_at_take (sample_bmp ++ [255]) 66 i (by exact_mod_cast h1), e])

/-! ## Glyphs -/

theorem glyph_bit_eq (v j : Nat) : ((v >>> j) &&& 1 ≠ 0) ↔ (v / 2 ^ j) % 2 = 1 := by
  rw [Nat.shiftRight_eq_div_pow, Nat.and_one_is_mod]
  omega

theorem parts_per_line_eq (font : Nat → Nat) : parts_per_line font = (font 0 + 7) / 8 := by
  unfold parts_per_line
  have h3 : font 0 >>> 3 = font 0 / 8 := by rw [Nat.shiftRight_eq_div_pow]
  have h7 : font 0 &&& 7 = font 0 % 8 := Nat.and_pow_two_sub_one_eq_mod (font 0) 3
  rw [h3, h7]
  split <;> omega

/-- The pixels added by `ssd1306_draw_char_with_font` for a character inside
the font's range, with the coordinates as the `uint32_t` values the code
forms. -/
theorem draw_char_adds (p : ssd1306_t) (x y scale : Nat) (font : Nat → Nat) (c : Int)
    (hw : p.width < 256) (hh : p.height < 256)
    (hc : ¬ (c < (font 3 : Int) ∨ c > (font 4 : Int))) :
    AddsPixels p (ssd1306_draw_char_with_font p x y scale font c)
      (fun px py => ∃ w, w < font 1 ∧ ∃ lp, lp < parts_per_line font ∧ ∃ j, j < 8
        ∧ (font ((glyph_index font c w + lp) % 2 ^ 32) / 2 ^ j) % 2 = 1
        ∧ ∃ a, a < scale ∧ ∃ b, b < scale
          ∧ (px = ((x + w * scale) % 2 ^ 32 + a) % 2 ^ 32
              ∧ py = ((y + (lp * 8 + j) * scale) % 2 ^ 32 + b) % 2 ^ 32)) := by
  unfold ssd1306_draw_char_with_font
  rw [if_neg hc]
  have hbit : ∀ (q : ssd1306_t) (w lp j : Nat), q.width < 256 → q.height < 256 →
      AddsPixels q
        (if (font ((glyph_index font c w + lp) % 2 ^ 32) >>> j) &&& 1 ≠ 0 then
            ssd1306_draw_square q ((x + w * scale) % 2 ^ 32)
              ((y + ((lp <<< 3) + j) * scale) % 2 ^ 32) scale scale
          else q)
        (fun px py => (font ((glyph_index font c w + lp) % 2 ^ 32) / 2 ^ j) % 2 = 1
          ∧ ∃ a, a < scale ∧ ∃ b, b < scale
            ∧ (px = ((x + w * scale) % 2 ^ 32 + a) % 2 ^ 32
                ∧ py = ((y + (lp * 8 + j) * scale) % 2 ^ 32 + b) % 2 ^ 32)) := by
    intro q w lp j hq1 hq2
    have hs : lp <<< 3 = lp * 8 := by rw [Nat.shiftLeft_eq]
    rw [hs]
    refine adds_congr (adds_ite _ (draw_square_adds_mod q _ _ scale scale hq1 hq2)) ?_
    intro px py _ _
    rw [glyph_bit_eq]
  have hpart : ∀ (q : ssd1306_t) (w lp : Nat), q.width < 256 → q.height < 256 →
      AddsPixels q
        ((List.range 8).foldl
          (fun q2 j =>
            if (font ((glyph_index font c w + lp) % 2 ^ 32) >>> j) &&& 1 ≠ 0 then
              ssd1306_draw_square q2 ((x + w * scale) % 2 ^ 32)
                ((y + ((lp <<< 3) + j) * scale) % 2 ^ 32) scale scale
            else q2) q)
        (fun px py => ∃ j, j < 8
          ∧ (font ((glyph_index font c w + lp) % 2 ^ 32) / 2 ^ j) % 2 = 1
          ∧ ∃ a, a < scale ∧ ∃ b, b < scale
            ∧ (px = ((x + w * scale) % 2 ^ 32 + a) % 2 ^ 32
                ∧ py = ((y + (lp * 8 + j) * scale) % 2 ^ 32 + b) % 2 ^ 32)) := by
    intro q w lp hq1 hq2
    refine adds_congr (foldl_adds _ _ (fun q2 j h1 h2 => hbit q2 w lp j h1 h2)
      (List.range 8) q hq1 hq2) ?_
    intro px py _ _
    simp only [List.mem_range]
  have hcol : ∀ (q : ssd1306_t) (w : Nat), q.width < 256 → q.height < 256 →
      AddsPixels q
        ((List.range (parts_per_line font)).foldl
          (fun q1 lp => (List.range 8).foldl
            (fun q2 j =>
              if (font ((glyph_index font c w + lp) % 2 ^ 32) >>> j) &&& 1 ≠ 0 then
                ssd1306_draw_square q2 ((x + w * scale) % 2 ^ 32)
                  ((y + ((lp <<< 3) + j) * scale) % 2 ^ 32) scale scale
              else q2) q1) q)
        (fun px py => ∃ lp, lp < parts_per_line font ∧ ∃ j, j < 8
          ∧ (font ((glyph_index font c w + lp) % 2 ^ 32) / 2 ^ j) % 2 = 1
          ∧ ∃ a, a < scale ∧ ∃ b, b < scale
            ∧ (px = ((x + w * scale) % 2 ^ 32 + a) % 2 ^ 32
                ∧ py = ((y + (lp * 8 + j) * scale) % 2 ^ 32 + b) % 2 ^ 32)) := by
    intro q w hq1 hq2
    refine adds_congr (foldl_adds _ _ (fun q1 lp h1 h2 => hpart q1 w lp h1 h2)
      (List.range (parts_per_line font)) q hq1 hq2) ?_
    intro px py _ _
    simp only [List.mem_range]
  refine adds_congr (foldl_adds _ _ (fun q w h1 h2 => hcol q w h1 h2)
    (List.range (font 1)) p hw hh) ?_
  intro px py _ _
  simp only [List.mem_range]

theorem glyph_index_eq (font : Nat → Nat) (hf : ∀ i, font i < 256) (c w lp : Nat)
    (hc1 : font 3 ≤ c) (hc2 : c ≤ font 4) (hw : w < font 1) (hlp : lp < (font 0 + 7) / 8) :
    (glyph_index font (c : Int) w + lp) % 2 ^ 32
      = (c - font 3) * font 1 * ((font 0 + 7) / 8) + w * ((font 0 + 7) / 8) + lp + 5 := by
  have h0 := hf 0
  have h1 := hf 1
  have h4 := hf 4
  have hP : (font 0 + 7) / 8 ≤ 32 := by omega
  have hA : (c - font 3) * font 1 ≤ 255 * 255 := Nat.mul_le_mul (by omega) (by omega)
  have hAP : (c - font 3) * font 1 * ((font 0 + 7) / 8) ≤ 255 * 255 * 32 :=
    Nat.mul_le_mul hA hP
  have hwP : w * ((font 0 + 7) / 8) ≤ 255 * 32 := Nat.mul_le_mul (by omega) hP
  have hcast : ((c : Int) - (font 3 : Int)) * (font 1 : Int)
      = (((c - font 3) * font 1 : Nat) : Int) := by
    push_cast [Nat.cast_sub hc1]
    ring
  unfold glyph_index
  rw [hcast, i32_to_u32_natCast _ (by norm_num; omega), parts_per_line_eq]
  rw [Nat.mod_eq_of_lt (by norm_num; omega), Nat.mod_eq_of_lt (by norm_num; omega)]
  omega

/-- C16 (as stated, refuted): `sample_font` encodes the character 65 with an
empty first column and bit 0 of the second column set.  Drawn at
`x = 2^32 - 1`, `y = 0` with scale 1 on the clear 128x64 sample display, the
code sets pixel `(0, 0)`, because the `uint32_t` sum `x + 1 * scale` wraps to
0, whereas no column `w` satisfies `x + w * scale <= 0`. -/
theorem draw_char_position_wraps :
    (sample_font 3 ≤ 65 ∧ 65 ≤ sample_font 4)
    ∧ pixel_set sample_device 0 0 = false
    ∧ pixel_set (ssd1306_draw_char_with_font sample_device (2 ^ 32 - 1) 0 1 sample_font 65)
        0 0 = true
    ∧ ¬ (∃ w lp j : Nat, w < sample_font 1 ∧ lp < (sample_font 0 + 7) / 8 ∧ j < 8
          ∧ (2 ^ 32 - 1) + w * 1 ≤ 0 ∧ 0 < (2 ^ 32 - 1) + (w + 1) * 1) := by
  refine ⟨by decide, by decide, ?_, ?_⟩
  · have ha := draw_char_adds sample_device (2 ^ 32 - 1) 0 1 sample_font 65
      (by decide) (by decide) (by decide)
    apply (adds_pixel_view ha 0 0 (by decide) (by decide)).2
    refine Or.inr ⟨1, by decide, 0, by decide, 0, by norm_num, by decide, 0, by norm_num,
      0, by norm_num, ?_, ?_⟩
    · norm_num
    · norm_num
  · rintro ⟨w, lp, j, _, _, _, h, _⟩
    omega

/-- C16 (amended): for a font blob of `uint8_t` bytes, a character `c` with
`font[3] <= c <= font[4]`, and a position and scale with
`x + font[1] * scale < 2^32` and `y + 8 * ppl * scale < 2^32`,
`ppl = ceil(font[0] / 8)`, the result is the given state with exactly the
display pixels `(px, py)` added for which there are `w < font[1]`, `lp < ppl`,
`j < 8` with bit `j` of `font[(c - font[3]) * font[1] * ppl + w * ppl + lp + 5]`
set, `x + w * scale <= px < x + (w + 1) * scale` and
`y + (8 * lp + j) * scale <= py < y + (8 * lp + j + 1) * scale`.  (The fields
`width` and `height` are `uint8_t`.) -/
theorem draw_char_scaled_glyph (p : ssd1306_t) (x y scale : Nat) (font : Nat → Nat) (c : Nat)
    (hw : p.width < 256) (hh : p.height < 256) (hf : ∀ i, font i < 256)
    (hc1 : font 3 ≤ c) (hc2 : c ≤ font 4)
    (hx : x + font 1 * scale < 2 ^ 32) (hy : y + 8 * ((font 0 + 7) / 8) * scale < 2 ^ 32) :
    AddsPixels p (ssd1306_draw_char_with_font p x y scale font (c : Int))
      (fun px py => ∃ w lp j, w < font 1 ∧ lp < (font 0 + 7) / 8 ∧ j < 8
        ∧ (font ((c - font 3) * font 1 * ((font 0 + 7) / 8) + w * ((font 0 + 7) / 8)
              + lp + 5)).testBit j = true
        ∧ x + w * scale ≤ px ∧ px < x + (w + 1) * scale
        ∧ y + (8 * lp + j) * scale ≤ py ∧ py < y + (8 * lp + j + 1) * scale) := by
  have hc : ¬ ((c : Int) < (font 3 : Int) ∨ (c : Int) > (font 4 : Int)) := by omega
  refine adds_congr (draw_char_adds p x y scale font (c : Int) hw hh hc) ?_
  intro px py _ _
  rw [parts_per_line_eq]
  have hcols : ∀ w, w < font 1 → w * scale + scale ≤ font 1 * scale := by
    intro w hwl
    have := Nat.mul_le_mul_right scale (Nat.succ_le_of_lt hwl)
    rw [Nat.succ_mul] at this
    exact this
  have hrows : ∀ lp j, lp < (font 0 + 7) / 8 → j < 8 →
      (lp * 8 + j) * scale + scale ≤ 8 * ((font 0 + 7) / 8) * scale := by
    intro lp j hl hj
    have := Nat.mul_le_mul_right scale (show lp * 8 + j + 1 ≤ 8 * ((font 0 + 7) / 8) by omega)
    rw [Nat.add_mul, Nat.one_mul] at this
    exact this
  constructor
  · rintro ⟨w, hwl, lp, hl, j, hj, hbit, a, ha, b, hb, h1, h2⟩
    have e8 : 8 * lp + j = lp * 8 + j := by omega
    have hc' := hcols w hwl
    have hr' := hrows lp j hl hj
    refine ⟨w, lp, j, hwl, hl, hj, ?_, ?_⟩
    · rw [← glyph_index_eq font hf c w lp hc1 hc2 hwl hl, Nat.testBit_to_div_mod]
      simpa using hbit
    · rw [show (8 * lp + j + 1) * scale = (lp * 8 + j) * scale + scale by
          rw [e8, Nat.add_mul, Nat.one_mul],
        e8, Nat.succ_mul, h1, h2]
      generalize w * scale = ws at hc' ⊢
      generalize (lp * 8 + j) * scale = ls at hr' ⊢
      generalize font 1 * scale = fs at hc' hx
      generalize 8 * ((font 0 + 7) / 8) * scale = ps at hr' hy
      rw [Nat.mod_eq_of_lt (show x + ws < 2 ^ 32 by omega),
        Nat.mod_eq_of_lt (show x + ws + a < 2 ^ 32 by omega),
        Nat.mod_eq_of_lt (show y + ls < 2 ^ 32 by omega),
        Nat.mod_eq_of_lt (show y + ls + b < 2 ^ 32 by omega)]
      omega
  · rintro ⟨w, lp, j, hwl, hl, hj, hbit, h1, h2, h3, h4⟩
    have e8 : 8 * lp + j = lp * 8 + j := by omega
    have hc' := hcols w hwl
    have hr' := hrows lp j hl hj
    rw [show (8 * lp + j + 1) * scale = (lp * 8 + j) * scale + scale by
        rw [e8, Nat.add_mul, Nat.one_mul]] at h4
    rw [e8] at h3
    rw [Nat.succ_mul] at h2
    refine ⟨w, hwl, lp, hl, j, hj, ?_, px - (x + w * scale), ?_, py - (y + (lp * 8 + j) * scale),
      ?_, ?_, ?_⟩
    · rw [glyph_index_eq font hf c w lp hc1 hc2 hwl hl]
      rw [Nat.testBit_to_div_mod] at hbit
      simpa using hbit
    · omega
    · omega
    · generalize w * scale = ws at hc' h1 h2 ⊢
      generalize font 1 * scale = fs at hc' hx
      rw [Nat.mod_eq_of_lt (show x + ws < 2 ^ 32 by omega),
        Nat.mod_eq_of_lt (show x + ws + (px - (x + ws)) < 2 ^ 32 by omega)]
      omega
    · generalize (lp * 8 + j) * scale = ls at hr' h3 h4 ⊢
      generalize 8 * ((font 0 + 7) / 8) * scale = ps at hr' hy
      rw [Nat.mod_eq_of_lt (show y + ls < 2 ^ 32 by omega),
        Nat.mod_eq_of_lt (show y + ls + (py - (y + ls)) < 2 ^ 32 by omega)]
      omega

/-- Witness for C16 (amended): the character 65 of `sample_font` at `(3, 2)`
with scale 2 on the 128x64 sample display. -/
theorem draw_char_scaled_glyph_witness :
    AddsPixels sample_device
      (ssd1306_draw_char_with_font sample_device 3 2 2 sample_font ((65 : Nat) : Int))
      (fun px py => ∃ w lp j, w < sample_font 1 ∧ lp < (sample_font 0 + 7) / 8 ∧ j < 8
        ∧ (sample_font ((65 - sample_font 3) * sample_font 1 * ((sample_font 0 + 7) / 8)
              + w * ((sample_font 0 + 7) / 8) + lp + 5)).testBit j = true
        ∧ 3 + w * 2 ≤ px ∧ px < 3 + (w + 1) * 2
        ∧ 2 + (8 * lp + j) * 2 ≤ py ∧ py < 2 + (8 * lp + j + 1) * 2) :=
  draw_char_scaled_glyph sample_device 3 2 2 sample_font 65 (by decide) (by decide)
    (by
      intro i
      unfold sample_font
      rcases Nat.lt_or_ge i 7 with h | h
      · interval_cases i <;> decide
      · rw [List.getD_eq_getElem?_getD, List.getElem?_eq_none (by simpa using h)]
        norm_num)
    (by decide) (by decide) (by decide) (by decide)

end SSD1306
